import Mathlib

/-!
# Cuckoo hash table (`src/src/cuckoo_hash.c`): embedding and specification check

The C program keeps one contiguous array of slots.  A pointer to a slot (or to the
record embedded in it) is modelled by the slot's index, a nullable pointer by
`Option Nat`.  Machine integers are natural numbers, reduced modulo `2 ^ 32`
(`uint32_t`) or `2 ^ 64` (`size_t`) where the C arithmetic can wrap.  A failed
`assert` aborts the program (the asserts are compiled in): functions that can reach
one return `Option`, and `none` is the abort.  The allocator is an input:
`calloc_ok`, `realloc_ok`, the number `allocs` of reallocations that still succeed,
and the memory `memory` found behind a reallocated block.  The mixing function
`hashlittle2` is external to the repository and is a parameter throughout.
-/

namespace CuckooHash

/-! ## Data model (declarations of `cuckoo_hash.h`, as used by `cuckoo_hash.c`) -/

/-- Modelled from the spec: `struct cuckoo_hash_item` of the header `cuckoo_hash.h`
(not among the sources), the record handed out to callers, "a key (64-bit unsigned),
a value (64-bit unsigned)"; the field names are those `cuckoo_hash.c` uses. -/
structure cuckoo_hash_item where
  key : Nat
  value : Nat
deriving DecidableEq

/-- Modelled from the spec: `struct _cuckoo_hash_elem` of the header, a slot of the
table: the record "and the two hash values (`hash1`, `hash2`, each 32-bit)" stored
with it; the field names are those `cuckoo_hash.c` uses. -/
structure _cuckoo_hash_elem where
  hash_item : cuckoo_hash_item
  hash1 : Nat
  hash2 : Nat
deriving DecidableEq

/-- Modelled from the spec: `struct cuckoo_hash` of the header, the table: "a single
contiguous array of Slots, a count of occupied slots, and a growth exponent `power`",
with the bound on displacement rounds; the field names are those `cuckoo_hash.c`
uses. -/
structure cuckoo_hash where
  table : List _cuckoo_hash_elem
  count : Nat
  power : Nat
  recursion_limit : Nat
deriving DecidableEq

/-- Modelled from the spec: the return value of `cuckoo_hash_insert`, whose failure
sentinel `CUCKOO_HASH_FAILED` is declared in the header `cuckoo_hash.h` (not among
the sources).  The spec makes it "a dedicated failure sentinel (distinct from
both)" the null result and a reference to an existing record. -/
inductive insert_return where
  | NULL
  | existing (index : Nat)
  | CUCKOO_HASH_FAILED
deriving DecidableEq

/-- Type of the external mixer `hashlittle2 (key, length, pc, pb)`: from the key,
its length in bytes and the two seeds it yields the new `(*pc, *pb)`. -/
abbrev mixer := Nat → Nat → Nat → Nat → Nat × Nat

/-- A zero-filled slot, as `calloc` and `memset (.., 0, ..)` leave it. -/
def zero_elem : _cuckoo_hash_elem :=
  { hash_item := { key := 0, value := 0 }, hash1 := 0, hash2 := 0 }

/-! ## Operations -/

/-- Function `compute_hash`: seeds the two outputs, calls the mixer on the 8-byte key,
keeps the results as `uint32_t`, and complements `h2` when the two coincide. -/
def compute_hash (hashlittle2 : mixer) (key : Nat) : Nat × Nat :=
  let out := hashlittle2 key 8 0x3ac5d673 0x6d7839d0
  let h1 := out.1 % 2 ^ 32
  let h2 := out.2 % 2 ^ 32
  if h1 = h2 then (h1, h2 ^^^ 0xffffffff) else (h1, h2)

/-- Function `cuckoo_hash_init`: sets the header and allocates `2 << power` zeroed
slots; the boolean is the return value (`false` when `calloc` fails, the table
pointer being null then). -/
def cuckoo_hash_init (power : Nat) (calloc_ok : Bool) : cuckoo_hash × Bool :=
  if calloc_ok then
    ({ table := List.replicate (2 <<< power) zero_elem, count := 0, power := power,
       recursion_limit := 16 }, true)
  else
    ({ table := [], count := 0, power := power, recursion_limit := 16 }, false)

/-- Function `bin_at`, read through: the slot `hash->table + index`.  The function is
total: past the end of the array it yields a zero slot. -/
def bin_at (hash : cuckoo_hash) (index : Nat) : _cuckoo_hash_elem :=
  hash.table.getD index zero_elem

/-- Assignment `*bin_at (hash, index) = e`. -/
def bin_store (hash : cuckoo_hash) (index : Nat) (e : _cuckoo_hash_elem) : cuckoo_hash :=
  { hash with table := hash.table.set index e }

/-- The expression `(2 << hash->power) - 1` stored in a `uint32_t`. -/
def mask (hash : cuckoo_hash) : Nat := (2 <<< hash.power - 1) % 2 ^ 32

/-- The static function `lookup`: `none` is `NULL`, `some i` the record of slot `i`. -/
def lookup (hash : cuckoo_hash) (key h1 h2 : Nat) : Option Nat :=
  let mask := mask hash
  let elem := bin_at hash (h1 &&& mask)
  if elem.hash2 = h2 ∧ elem.hash1 = h1 ∧ elem.hash_item.key = key then
    some (h1 &&& mask)
  else
    let elem := bin_at hash (h2 &&& mask)
    if elem.hash2 = h1 ∧ elem.hash1 = h2 ∧ elem.hash_item.key = key then
      some (h2 &&& mask)
    else
      none

/-- Function `cuckoo_hash_lookup`: derives the two hashes and calls `lookup`. -/
def cuckoo_hash_lookup (hashlittle2 : mixer) (hash : cuckoo_hash) (key : Nat) : Option Nat :=
  let h := compute_hash hashlittle2 key
  lookup hash key h.1 h.2

/-- Function `cuckoo_hash_remove`: `assert (hash_item)` aborts on a null reference;
otherwise both hashes of the slot are zeroed (key and value stay) and `count` is
decremented as a `size_t`. -/
def cuckoo_hash_remove (hash : cuckoo_hash) (hash_item : Option Nat) : Option cuckoo_hash :=
  match hash_item with
  | none => none
  | some i =>
    let elem := bin_at hash i
    some { bin_store hash i { elem with hash1 := 0, hash2 := 0 } with
           count := (hash.count + 2 ^ 64 - 1) % 2 ^ 64 }

/-- Modelled from the spec: `sizeof (struct _cuckoo_hash_elem)`, the struct being
declared in the header `cuckoo_hash.h` (not among the sources): "a key (64-bit
unsigned), a value (64-bit unsigned), and the two hash values (`hash1`, `hash2`, each
32-bit)", 24 bytes. -/
def sizeof_elem : Nat := 24

/-- The memory the program meets where `realloc` puts the array: `memory table index`
is the slot read `index` slots from the address returned when the array `table` was
reallocated, wherever the C library leaves the bytes open.  Like the mixer and the
success of the allocator it is an input. -/
abbrev heap := List _cuckoo_hash_elem → Nat → _cuckoo_hash_elem

/-- A heap that suits `grow_table`: the array stays where it is with every slot as it
was, and the memory behind the array is zero. -/
def in_place : heap := fun table index => table.getD index zero_elem

/-- A field of `width` bytes that starts at byte `start` of an array and is stored
little-endian, when the bytes of the array below byte `kept` are those of `low` and
the bytes from byte `kept` on are those of `high`. -/
def splice (kept start width low high : Nat) : Nat :=
  if start + width ≤ kept then low
  else if kept ≤ start then high
  else low % 256 ^ (kept - start) + 256 ^ (kept - start) * (high / 256 ^ (kept - start))

/-- Modelled from the spec: slot `index` of an array whose bytes below byte `kept` are
those of `low` and whose other bytes are those of `high`.  The layout of
`struct _cuckoo_hash_elem` (header not among the sources) follows the order in which
the spec lists the fields: the key at byte 0 of the slot, the value at byte 8,
`hash1` at byte 16 and `hash2` at byte 20. -/
def splice_elem (kept index : Nat) (low high : _cuckoo_hash_elem) : _cuckoo_hash_elem :=
  let start := index * sizeof_elem
  { hash_item :=
      { key := splice kept start 8 low.hash_item.key high.hash_item.key,
        value := splice kept (start + 8) 8 low.hash_item.value high.hash_item.value },
    hash1 := splice kept (start + 16) 4 low.hash1 high.hash1,
    hash2 := splice kept (start + 20) 4 low.hash2 high.hash2 }

/-- Library function `realloc (table, size)` when it succeeds, seen through the pointer
it returns as an array of `slots` slots.  The block returned has `size` bytes, and
"the contents of the new object shall be the same as that of the old object prior to
deallocation, up to the lesser of the new and old sizes" (C11, 7.22.3.5); the bytes
behind the block are those of `memory`. -/
def realloc (memory : Nat → _cuckoo_hash_elem) (table : List _cuckoo_hash_elem)
    (size slots : Nat) : List _cuckoo_hash_elem :=
  let kept := min size (table.length * sizeof_elem)
  (List.range slots).map
    (fun index => splice_elem kept index (table.getD index zero_elem) (memory index))

/-- Library function `memset (table + start, 0, length)`: the pointer arithmetic counts
slots, and the `length` bytes from there on become zero. -/
def memset (table : List _cuckoo_hash_elem) (start length : Nat) : List _cuckoo_hash_elem :=
  let first := start * sizeof_elem
  (List.range table.length).map
    (fun index =>
      splice_elem first index (table.getD index zero_elem)
        (splice_elem (first + length) index zero_elem (table.getD index zero_elem)))

/-- Function `grow_table`.  With `old_size = 2 << power` and `new_size = old_size << 1`
it calls `realloc (hash->table, new_size)`; when that fails nothing changes, otherwise
the pointer returned is stored, `memset (hash->table + old_size, 0, old_size)` is
called and `power` is incremented.  Both sizes are slot counts and go to the library
as byte counts: the block has `new_size` bytes, so only that many bytes of the old
array are the library's to keep, and `memset` clears `old_size` bytes behind the old
array.  The table afterwards is the array of `new_size` slots that the program
addresses from then on at the pointer returned; the slots of it that lie behind the
block hold what `memory` holds there, and writes to them stay. -/
def grow_table (memory : heap) (hash : cuckoo_hash) (realloc_ok : Bool) :
    cuckoo_hash × Bool :=
  let old_size := 2 <<< hash.power
  let new_size := old_size <<< 1
  if realloc_ok then
    let table := realloc (memory hash.table) hash.table new_size new_size
    ({ hash with table := memset table old_size old_size, power := hash.power + 1 }, true)
  else
    (hash, false)

/-- The `for` loop of `undo_insert`, with `fuel` rounds left at counter `depth`.
The result is `none` when the `assert` inside the loop fails, otherwise the table,
the record in hand and the value returned (`true` from inside the loop, `false`
when the loop runs out). -/
def undo_rounds (hash : cuckoo_hash) (item : _cuckoo_hash_elem) :
    Nat → Nat → Option (cuckoo_hash × _cuckoo_hash_elem × Bool)
  | 0, _ => some (hash, item, false)
  | fuel + 1, depth =>
    let mask := mask hash
    let h2m := item.hash2 &&& mask
    let victim := bin_at hash h2m
    let cpy := victim
    let h1m := victim.hash1 &&& mask
    let hash' := bin_store hash h2m
      { hash_item := item.hash_item, hash1 := item.hash2, hash2 := item.hash1 }
    if h1m ≠ h2m then
      if depth ≥ hash.recursion_limit then some (hash', item, true) else none
    else
      undo_rounds hash' cpy fuel (depth + 1)

/-- Function `undo_insert`: the loop from `depth = 0` with `recursion_limit` rounds. -/
def undo_insert (hash : cuckoo_hash) (item : _cuckoo_hash_elem) :
    Option (cuckoo_hash × _cuckoo_hash_elem × Bool) :=
  undo_rounds hash item hash.recursion_limit 0

/-- The `for` loop of `insert` with `fuel` rounds left: the table, the record in
hand, and whether the loop returned `true` (placed) or ran out of rounds. -/
def insert_rounds (hash : cuckoo_hash) (item : _cuckoo_hash_elem) :
    Nat → cuckoo_hash × _cuckoo_hash_elem × Bool
  | 0 => (hash, item, false)
  | fuel + 1 =>
    let mask := mask hash
    let h1m := item.hash1 &&& mask
    let elem := bin_at hash h1m
    if elem.hash1 = elem.hash2 ∨ (elem.hash1 &&& mask) ≠ h1m then
      (bin_store hash h1m item, item, true)
    else
      let victim := elem
      insert_rounds (bin_store hash h1m item)
        { hash_item := victim.hash_item, hash1 := victim.hash2, hash2 := victim.hash1 } fuel

/-- The static function `insert`.  `allocs` is the number of `realloc` calls that
will still succeed, `memory` what they find.  After the rounds are used up the table
is grown and `insert` is called again with the record then in hand; when `realloc`
fails `undo_insert` runs, `insert` returns `false` if that returned `true`, and
reaches `assert (false)` (the abort, `none`) if it returned `false`. -/
def insert (memory : heap) (hash : cuckoo_hash) (item : _cuckoo_hash_elem) :
    Nat → Option (cuckoo_hash × _cuckoo_hash_elem × Bool)
  | a + 1 =>
    match insert_rounds hash item hash.recursion_limit with
    | (hash', item', true) => some (hash', item', true)
    | (hash', item', false) => insert memory (grow_table memory hash' true).1 item' a
  | 0 =>
    match insert_rounds hash item hash.recursion_limit with
    | (hash', item', true) => some (hash', item', true)
    | (hash', item', false) =>
      match undo_insert (grow_table memory hash' false).1 item' with
      | some (hash'', item'', true) => some (hash'', item'', false)
      | some (_, _, false) => none
      | none => none

/-- Function `cuckoo_hash_insert`.  The result `none` is an abort; otherwise it is the
table afterwards and the pointer returned. -/
def cuckoo_hash_insert (hashlittle2 : mixer) (memory : heap) (hash : cuckoo_hash)
    (key value allocs : Nat) : Option (cuckoo_hash × insert_return) :=
  let h := compute_hash hashlittle2 key
  match lookup hash key h.1 h.2 with
  | some i => some (hash, insert_return.existing i)
  | none =>
    let elem : _cuckoo_hash_elem :=
      { hash_item := { key := key, value := value }, hash1 := h.1, hash2 := h.2 }
    match insert memory hash elem allocs with
    | none => none
    | some (hash', _, true) =>
      some ({ hash' with count := (hash'.count + 1) % 2 ^ 64 }, insert_return.NULL)
    | some (hash', elem', false) =>
      if elem'.hash_item.key = key ∧ elem'.hash_item.value = value
          ∧ elem'.hash1 = h.1 ∧ elem'.hash2 = h.2 then
        some (hash', insert_return.CUCKOO_HASH_FAILED)
      else none

/-- The `while` loop of `cuckoo_hash_next` from slot `i`, with `fuel` iterations
left.  `bin <= elem && elem < bin` compares the slot the stored `hash1` maps to
with the slot under the cursor. -/
def next_scan (hash : cuckoo_hash) (bin_count mask : Nat) : Nat → Nat → Option Nat
  | 0, _ => none
  | fuel + 1, i =>
    if i = bin_count then none
    else
      let elem := bin_at hash i
      if elem.hash1 ≠ elem.hash2 ∧
          ((elem.hash1 &&& mask) ≤ i ∧ i < (elem.hash1 &&& mask)) then
        some i
      else
        next_scan hash bin_count mask fuel (i + 1)

/-- Function `cuckoo_hash_next`: the scan starts at slot 0 for a null `hash_item` and
one past the given record otherwise; `bin_count = 2 << power` and `mask = bin_count - 1`
are `uint32_t`.  The cursor moves upwards only, so `bin_count + 1` iterations let
the loop reach `end` from every start at or below it. -/
def cuckoo_hash_next (hash : cuckoo_hash) (hash_item : Option Nat) : Option Nat :=
  let start := match hash_item with
    | some i => i + 1
    | none => 0
  let bin_count := (2 <<< hash.power) % 2 ^ 32
  let mask := (bin_count + 2 ^ 32 - 1) % 2 ^ 32
  next_scan hash bin_count mask (bin_count + 1) start

/-! ## Test harness (`src/test/test.cpp`) and auxiliary notions -/

/-- Modelled from the spec: the iteration macro `cuckoo_hash_each` of the header
`cuckoo_hash.h` (not among the sources), the spec's `iterate`, "a finite, restartable
... lazy sequence" of records: `cuckoo_hash_next` is called from `NULL` and then from
each record it returned, until it returns `NULL`; `fuel` bounds the number of
records. -/
def each_from (hash : cuckoo_hash) : Nat → Option Nat → List Nat
  | 0, _ => []
  | fuel + 1, cur =>
    match cuckoo_hash_next hash cur with
    | none => []
    | some i => i :: each_from hash fuel (some i)

/-- Records visited by a full pass of `cuckoo_hash_each`. -/
def cuckoo_hash_each (hash : cuckoo_hash) : List Nat :=
  each_from hash (hash.table.length + 1) none

/-- Function `traverse<cuckoo_hash>` of the test: the sum of the values met by the
iteration. -/
def traverse (hash : cuckoo_hash) : Nat :=
  ((cuckoo_hash_each hash).map (fun i => (bin_at hash i).hash_item.value)).sum

/-- The insertion loop of the test's `main`: the pairs are inserted in order, and
the run stops (`none`) on an abort or when `CUCKOO_HASH_FAILED` comes back, where
`insert<cuckoo_hash>` throws.  Every call may reallocate `allocs` times, on the heap
`memory`. -/
def insert_all (hashlittle2 : mixer) (memory : heap) (allocs : Nat) :
    cuckoo_hash → List (Nat × Nat) → Option cuckoo_hash
  | hash, [] => some hash
  | hash, d :: rest =>
    match cuckoo_hash_insert hashlittle2 memory hash d.1 d.2 allocs with
    | none => none
    | some (_, insert_return.CUCKOO_HASH_FAILED) => none
    | some (hash', _) => insert_all hashlittle2 memory allocs hash' rest

/-- The lookup loop of the test's `main`: how many of the keys `lookup<cuckoo_hash>`
finds. -/
def found (hashlittle2 : mixer) (hash : cuckoo_hash) (keys : List Nat) : Nat :=
  (keys.filter (fun k => (cuckoo_hash_lookup hashlittle2 hash k).isSome)).length

/-- Number of occupied slots: those whose stored `hash1` differs from `hash2`. -/
def occupied (hash : cuckoo_hash) : Nat :=
  (hash.table.filter (fun e => decide (e.hash1 ≠ e.hash2))).length

/-- A stand-in for the external mixer with fixed pairs for the keys 5, 6 and 7: the
values that `hashlittle2` of Bob Jenkins' lookup3, the function `compute_hash`
declares, yields for these 8-byte keys and seeds on a little-endian machine.  Every
other key gets `(key, key + 1)`. -/
def fixed_mixer : mixer := fun key _ _ _ =>
  if key = 5 then (0x1269aa5d, 0x7e0940a5)
  else if key = 6 then (0x49d2d313, 0x589eb531)
  else if key = 7 then (0xd7263bef, 0xf4aa20f9)
  else (key, key + 1)

/-- The table of `cuckoo_hash_init (1)`: four empty slots. -/
def table_init1 : cuckoo_hash := (cuckoo_hash_init 1 true).1

/-- The table after keys 7 and 6 (values 70 and 60) went into `table_init1` under
`fixed_mixer`: key 6 sits in slot 3, where key 7 was first, and key 7 in its
alternate slot 1 with its hashes exchanged. -/
def table_two : cuckoo_hash :=
  { table := [ zero_elem,
               { hash_item := { key := 7, value := 70 },
                 hash1 := 0xf4aa20f9, hash2 := 0xd7263bef },
               zero_elem,
               { hash_item := { key := 6, value := 60 },
                 hash1 := 0x49d2d313, hash2 := 0x589eb531 } ],
    count := 2, power := 1, recursion_limit := 16 }

/-- The table the 16 rounds of `insert` leave when key 5 is inserted into `table_two`:
key 5 in slot 1 with its hashes exchanged, key 7 back in slot 3, key 6 in hand. -/
def table_stuck : cuckoo_hash :=
  { table := [ zero_elem,
               { hash_item := { key := 5, value := 50 },
                 hash1 := 0x7e0940a5, hash2 := 0x1269aa5d },
               zero_elem,
               { hash_item := { key := 7, value := 70 },
                 hash1 := 0xd7263bef, hash2 := 0xf4aa20f9 } ],
    count := 2, power := 1, recursion_limit := 16 }

/-- The table after key 5 (value 50) was inserted into `table_two` with a successful
growth: eight slots, the record of key 5 in slot 1 under a `hash1` that maps to slot
5, key 6 in slot 3, and key 7 in no slot. -/
def table_grown : cuckoo_hash :=
  { table := [ zero_elem,
               { hash_item := { key := 5, value := 50 },
                 hash1 := 0x7e0940a5, hash2 := 0x1269aa5d },
               zero_elem,
               { hash_item := { key := 6, value := 60 },
                 hash1 := 0x49d2d313, hash2 := 0x589eb531 },
               zero_elem, zero_elem, zero_elem, zero_elem ],
    count := 3, power := 2, recursion_limit := 16 }

/-- The table after key 5 was inserted into `table_grown` a second time, with value
51: a second record of key 5, in slot 5, and `count` 4. -/
def table_twice : cuckoo_hash :=
  { table := [ zero_elem,
               { hash_item := { key := 5, value := 50 },
                 hash1 := 0x7e0940a5, hash2 := 0x1269aa5d },
               zero_elem,
               { hash_item := { key := 6, value := 60 },
                 hash1 := 0x49d2d313, hash2 := 0x589eb531 },
               zero_elem,
               { hash_item := { key := 5, value := 51 },
                 hash1 := 0x1269aa5d, hash2 := 0x7e0940a5 },
               zero_elem, zero_elem ],
    count := 4, power := 2, recursion_limit := 16 }

/-! ## Invariants of reachable tables -/

/-- Tables built from `cuckoo_hash_init` by `cuckoo_hash_insert` calls that return
and by `cuckoo_hash_remove` calls on the record of an occupied slot.  An insert that
returns without having grown the table (`power` unchanged) counts on every heap; an
insert that grew the table counts when the heap was `in_place`, the old slots still
there and zero behind them. -/
inductive Reachable (hashlittle2 : mixer) : cuckoo_hash → Prop where
  | init (power : Nat) : Reachable hashlittle2 (cuckoo_hash_init power true).1
  | insert {hash hash' : cuckoo_hash} {r : insert_return} (memory : heap)
      (key value allocs : Nat) :
      Reachable hashlittle2 hash →
      cuckoo_hash_insert hashlittle2 memory hash key value allocs = some (hash', r) →
      hash'.power = hash.power ∨ memory = in_place →
      Reachable hashlittle2 hash'
  | remove {hash hash' : cuckoo_hash} (i : Nat) :
      Reachable hashlittle2 hash →
      i < hash.table.length →
      (bin_at hash i).hash1 ≠ (bin_at hash i).hash2 →
      cuckoo_hash_remove hash (some i) = some hash' →
      Reachable hashlittle2 hash'

/-- The stored hashes of a slot are the pair `compute_hash` derives from its key, in
one of the two orders. -/
def consistent (hashlittle2 : mixer) (e : _cuckoo_hash_elem) : Prop :=
  (e.hash1, e.hash2) = compute_hash hashlittle2 e.hash_item.key ∨
  (e.hash2, e.hash1) = compute_hash hashlittle2 e.hash_item.key

/-- Slot `i` is occupied and its stored `hash1` maps to `i` under the current mask:
the slots `insert` displaces rather than overwrites. -/
def live (hash : cuckoo_hash) (i : Nat) : Prop :=
  (bin_at hash i).hash1 ≠ (bin_at hash i).hash2 ∧ (bin_at hash i).hash1 &&& mask hash = i

/-- Invariant of reachable tables: the array has `2 << power` slots, occupied slots
store the hashes of their key, and no two live slots hold the same key. -/
structure Inv (hashlittle2 : mixer) (hash : cuckoo_hash) : Prop where
  size : hash.table.length = 2 <<< hash.power
  cons : ∀ i, (bin_at hash i).hash1 ≠ (bin_at hash i).hash2 →
    consistent hashlittle2 (bin_at hash i)
  uniq : ∀ i j, live hash i → live hash j →
    (bin_at hash i).hash_item.key = (bin_at hash j).hash_item.key → i = j

/-- What `grow_table` hands to the allocator and to `memset`, in bytes: the second
argument of `realloc`, the offset into the array of the pointer
`hash->table + old_size`, and the third argument of `memset`. -/
structure grow_requests where
  realloc_size : Nat
  memset_start : Nat
  memset_length : Nat
deriving DecidableEq

/-- The calls `realloc (hash->table, new_size)` and
`memset (hash->table + old_size, 0, old_size)` of `grow_table`, with
`old_size = 2 << power` and `new_size = old_size << 1`: both sizes go to the library
as they are, and the pointer arithmetic counts slots. -/
def grow_table_requests (hash : cuckoo_hash) : grow_requests :=
  let old_size := 2 <<< hash.power
  let new_size := old_size <<< 1
  { realloc_size := new_size, memset_start := old_size * sizeof_elem,
    memset_length := old_size }

/-- The steady-state predicate of the spec: every occupied slot sits at the index one
of its two stored hashes maps to under the current mask. -/
def steady (hash : cuckoo_hash) : Prop :=
  ∀ i, (bin_at hash i).hash1 ≠ (bin_at hash i).hash2 →
    i = (bin_at hash i).hash1 &&& mask hash ∨ i = (bin_at hash i).hash2 &&& mask hash

/-- A call made by a client of the table: `cuckoo_hash_insert` (with the number of
reallocations that would succeed) or `cuckoo_hash_remove` on the record of a slot. -/
inductive operation where
  | insert (key value allocs : Nat)
  | remove (index : Nat)
deriving DecidableEq

/-- A table with two tallies kept beside it: the `cuckoo_hash_insert` calls that
returned `NULL` and the `cuckoo_hash_remove` calls made. -/
structure run_state where
  hash : cuckoo_hash
  inserted : Nat
  removed : Nat
deriving DecidableEq

/-- One call, on the heap `memory`.  The run ends (`none`) when the program aborts,
and a remove is only made with a valid reference: the record of an occupied slot of
the table. -/
def run_step (hashlittle2 : mixer) (memory : heap) (s : run_state) :
    operation → Option run_state
  | operation.insert key value allocs =>
    match cuckoo_hash_insert hashlittle2 memory s.hash key value allocs with
    | none => none
    | some (hash', insert_return.NULL) =>
      some { hash := hash', inserted := s.inserted + 1, removed := s.removed }
    | some (hash', _) => some { hash := hash', inserted := s.inserted, removed := s.removed }
  | operation.remove index =>
    if index < s.hash.table.length ∧
        (bin_at s.hash index).hash1 ≠ (bin_at s.hash index).hash2 then
      match cuckoo_hash_remove s.hash (some index) with
      | none => none
      | some hash' => some { hash := hash', inserted := s.inserted, removed := s.removed + 1 }
    else none

/-- A sequence of calls, made one after the other. -/
def run (hashlittle2 : mixer) (memory : heap) :
    run_state → List operation → Option run_state
  | s, [] => some s
  | s, o :: rest =>
    match run_step hashlittle2 memory s o with
    | none => none
    | some s' => run hashlittle2 memory s' rest

/-- Number of occupied slots of an array: `occupied` on the bare list. -/
def occ (l : List _cuckoo_hash_elem) : Nat :=
  (l.filter (fun e => decide (e.hash1 ≠ e.hash2))).length

/-- Invariant of a run: `count` is at least the number of occupied slots, and
`count` plus the removes made equals the inserts that returned `NULL`. -/
def tally_ok (s : run_state) : Prop :=
  occupied s.hash ≤ s.hash.count ∧ s.hash.count + s.removed = s.inserted

/-- The table after key 7 (value 70) went into `table_init1`: key 7 in slot 3. -/
def table_one : cuckoo_hash :=
  { table := [ zero_elem, zero_elem, zero_elem,
               { hash_item := { key := 7, value := 70 },
                 hash1 := 0xd7263bef, hash2 := 0xf4aa20f9 } ],
    count := 1, power := 1, recursion_limit := 16 }

/-- The table after the record of slot 1 (key 7) was removed from `table_two`: the
hashes of slot 1 are zero, its key and value stay behind. -/
def table_removed : cuckoo_hash :=
  { table := [ zero_elem,
               { hash_item := { key := 7, value := 70 }, hash1 := 0, hash2 := 0 },
               zero_elem,
               { hash_item := { key := 6, value := 60 },
                 hash1 := 0x49d2d313, hash2 := 0x589eb531 } ],
    count := 1, power := 1, recursion_limit := 16 }

/-- The table after the record of slot 3 (key 6) was removed from `table_grown`. -/
def table_grown_removed : cuckoo_hash :=
  { table := [ zero_elem,
               { hash_item := { key := 5, value := 50 },
                 hash1 := 0x7e0940a5, hash2 := 0x1269aa5d },
               zero_elem,
               { hash_item := { key := 6, value := 60 }, hash1 := 0, hash2 := 0 },
               zero_elem, zero_elem, zero_elem, zero_elem ],
    count := 2, power := 2, recursion_limit := 16 }

/-- The table `insert` leaves when it is run with the record built for key 5 on
`table_two` grown on the heap `in_place`, the table as it was before the rounds for
key 5 began: key 7 in slot 1, key 6 in slot 3 and key 5 in slot 5 (`count` is the
business of `cuckoo_hash_insert`). -/
def table_retried : cuckoo_hash :=
  { table := [ zero_elem,
               { hash_item := { key := 7, value := 70 },
                 hash1 := 0xf4aa20f9, hash2 := 0xd7263bef },
               zero_elem,
               { hash_item := { key := 6, value := 60 },
                 hash1 := 0x49d2d313, hash2 := 0x589eb531 },
               zero_elem,
               { hash_item := { key := 5, value := 50 },
                 hash1 := 0x1269aa5d, hash2 := 0x7e0940a5 },
               zero_elem, zero_elem ],
    count := 2, power := 2, recursion_limit := 16 }

/-! ## Hash derivation -/

theorem xor_ones_ne (x : Nat) : x ^^^ 0xffffffff ≠ x := by
  intro h
  have h0 := congrArg (fun n => Nat.testBit n 0) h
  simp only [Nat.testBit_xor] at h0
  have h1 : Nat.testBit 0xffffffff 0 = true := by decide
  rw [h1] at h0
  cases hx : x.testBit 0 <;> simp [hx] at h0

theorem compute_hash_ne (hashlittle2 : mixer) (key : Nat) :
    (compute_hash hashlittle2 key).1 ≠ (compute_hash hashlittle2 key).2 := by
  unfold compute_hash
  simp only
  split
  · next h =>
    show _ ≠ _
    rw [h]
    exact (xor_ones_ne _).symm
  · next h => exact h

/-! ## Slots, masks and the invariant -/

theorem bin_at_bin_store (hash : cuckoo_hash) (i j : Nat) (e : _cuckoo_hash_elem) :
    bin_at (bin_store hash i e) j =
      if i = j ∧ i < hash.table.length then e else bin_at hash j := by
  unfold bin_at bin_store
  simp only [List.getD_eq_getElem?_getD, List.getElem?_set]
  by_cases hij : i = j
  · subst hij
    by_cases hlt : i < hash.table.length
    · simp [hlt]
    · have hn : hash.table[i]? = none := List.getElem?_eq_none (Nat.le_of_not_lt hlt)
      simp [hlt, hn]
  · simp [hij]

theorem bin_at_zero_of_le (hash : cuckoo_hash) (i : Nat) (h : hash.table.length ≤ i) :
    bin_at hash i = zero_elem := by
  unfold bin_at
  simp [List.getD_eq_getElem?_getD, List.getElem?_eq_none h]

theorem lt_length_of_occupied (hash : cuckoo_hash) (i : Nat)
    (h : (bin_at hash i).hash1 ≠ (bin_at hash i).hash2) : i < hash.table.length := by
  by_contra hlt
  rw [bin_at_zero_of_le hash i (Nat.le_of_not_lt hlt)] at h
  exact h rfl

theorem mask_eq (hash : cuckoo_hash) : mask hash = 2 ^ min (hash.power + 1) 32 - 1 := by
  unfold mask
  rw [Nat.shiftLeft_eq, ← Nat.pow_succ']
  by_cases hp : hash.power + 1 ≤ 32
  · rw [Nat.min_eq_left hp]
    apply Nat.mod_eq_of_lt
    have : 2 ^ (hash.power + 1) ≤ 2 ^ 32 := Nat.pow_le_pow_right (by decide) hp
    have : 0 < 2 ^ (hash.power + 1) := Nat.pos_pow_of_pos _ (by decide)
    omega
  · have hp' : 32 ≤ hash.power + 1 := by omega
    rw [Nat.min_eq_right hp']
    obtain ⟨k, hk⟩ := Nat.exists_eq_add_of_le hp'
    rw [show hash.power.succ = 32 + k from hk, Nat.pow_add]
    have hpos : 0 < 2 ^ k := Nat.pos_pow_of_pos _ (by decide)
    generalize 2 ^ k = m at hpos
    norm_num
    omega

theorem and_mask (hash : cuckoo_hash) (x : Nat) :
    x &&& mask hash = x % 2 ^ min (hash.power + 1) 32 := by
  rw [mask_eq, Nat.and_pow_two_sub_one_eq_mod]

theorem insert_rounds_fields (fuel : Nat) :
    ∀ (hash : cuckoo_hash) (item : _cuckoo_hash_elem),
      (insert_rounds hash item fuel).1.power = hash.power ∧
      (insert_rounds hash item fuel).1.count = hash.count ∧
      (insert_rounds hash item fuel).1.recursion_limit = hash.recursion_limit ∧
      (insert_rounds hash item fuel).1.table.length = hash.table.length := by
  induction fuel with
  | zero => intro hash item; exact ⟨rfl, rfl, rfl, rfl⟩
  | succ n ih =>
    intro hash item
    unfold insert_rounds
    simp only
    split
    · exact ⟨rfl, rfl, rfl, List.length_set _ _ _⟩
    · have := ih (bin_store hash (item.hash1 &&& mask hash) item)
        { hash_item := (bin_at hash (item.hash1 &&& mask hash)).hash_item,
          hash1 := (bin_at hash (item.hash1 &&& mask hash)).hash2,
          hash2 := (bin_at hash (item.hash1 &&& mask hash)).hash1 }
      refine ⟨this.1, this.2.1, this.2.2.1, ?_⟩
      rw [this.2.2.2]
      exact List.length_set _ _ _

theorem undo_rounds_fields (fuel : Nat) :
    ∀ (hash hash' : cuckoo_hash) (item item' : _cuckoo_hash_elem) (depth : Nat) (b : Bool),
      undo_rounds hash item fuel depth = some (hash', item', b) →
      hash'.power = hash.power ∧ hash'.count = hash.count ∧
      hash'.recursion_limit = hash.recursion_limit ∧
      hash'.table.length = hash.table.length := by
  induction fuel with
  | zero =>
    intro hash hash' item item' depth b h
    simp only [undo_rounds, Option.some.injEq, Prod.mk.injEq] at h
    rw [← h.1]
    exact ⟨rfl, rfl, rfl, rfl⟩
  | succ n ih =>
    intro hash hash' item item' depth b h
    unfold undo_rounds at h
    simp only at h
    split at h
    · split at h
      · simp only [Option.some.injEq, Prod.mk.injEq] at h
        rw [← h.1]
        exact ⟨rfl, rfl, rfl, List.length_set _ _ _⟩
      · exact absurd h (by simp)
    · have := ih _ hash' _ item' (depth + 1) b h
      refine ⟨this.1, this.2.1, this.2.2.1, ?_⟩
      rw [this.2.2.2]
      exact List.length_set _ _ _

theorem undo_rounds_false (fuel : Nat) :
    ∀ (hash hash' : cuckoo_hash) (item item' : _cuckoo_hash_elem) (depth : Nat) (b : Bool),
      depth + fuel ≤ hash.recursion_limit →
      undo_rounds hash item fuel depth = some (hash', item', b) → b = false := by
  induction fuel with
  | zero =>
    intro hash hash' item item' depth b _ h
    simp only [undo_rounds, Option.some.injEq, Prod.mk.injEq] at h
    exact h.2.2.symm
  | succ n ih =>
    intro hash hash' item item' depth b hle h
    unfold undo_rounds at h
    simp only at h
    split at h
    · rw [if_neg (by omega)] at h
      exact absurd h (by simp)
    · exact ih _ hash' _ item' (depth + 1) b
        (by show depth + 1 + n ≤ hash.recursion_limit; omega) h

theorem insert_returns_true (memory : heap) (allocs : Nat) :
    ∀ (hash hash' : cuckoo_hash) (item item' : _cuckoo_hash_elem) (b : Bool),
      insert memory hash item allocs = some (hash', item', b) → b = true := by
  induction allocs with
  | zero =>
    intro hash hash' item item' b h
    unfold insert at h
    split at h
    · simp only [Option.some.injEq, Prod.mk.injEq] at h
      exact h.2.2.symm
    · next h1 i1 _ =>
      split at h
      · next h2 i2 hu =>
        have := undo_rounds_false _ _ h2 _ i2 0 true
          (by show 0 + h1.recursion_limit ≤ h1.recursion_limit; omega) hu
        exact absurd this (by simp)
      · exact absurd h (by simp)
      · exact absurd h (by simp)
  | succ a ih =>
    intro hash hash' item item' b h
    unfold insert at h
    split at h
    · simp only [Option.some.injEq, Prod.mk.injEq] at h
      exact h.2.2.symm
    · exact ih _ hash' _ item' b h

/-- Whatever the heap holds, a successful `grow_table` increments `power`, keeps
`count` and `recursion_limit`, and leaves an array of `2 << power` slots (for the new
`power`) to address. -/
theorem grow_table_fields (memory : heap) (hash : cuckoo_hash) :
    (grow_table memory hash true).1.power = hash.power + 1 ∧
    (grow_table memory hash true).1.count = hash.count ∧
    (grow_table memory hash true).1.recursion_limit = hash.recursion_limit ∧
    (grow_table memory hash true).1.table.length = 2 <<< (hash.power + 1) := by
  refine ⟨rfl, rfl, rfl, ?_⟩
  show (memset _ _ _).length = _
  unfold memset realloc
  simp only [List.length_map, List.length_range]
  rw [Nat.shiftLeft_eq, Nat.shiftLeft_eq, Nat.shiftLeft_eq, Nat.pow_succ]
  omega

theorem insert_power_le (memory : heap) (allocs : Nat) :
    ∀ (hash hash' : cuckoo_hash) (item item' : _cuckoo_hash_elem) (b : Bool),
      insert memory hash item allocs = some (hash', item', b) →
      hash.power ≤ hash'.power := by
  induction allocs with
  | zero =>
    intro hash hash' item item' b h
    have hf := insert_rounds_fields hash.recursion_limit hash item
    unfold insert at h
    split at h
    · next h1 i1 heq =>
      rw [heq] at hf
      simp only [Option.some.injEq, Prod.mk.injEq] at h
      rw [← h.1, hf.1]
    · next h1 i1 heq =>
      split at h
      · next h2 i2 hu =>
        have := undo_rounds_false _ _ h2 _ i2 0 true
          (by show 0 + h1.recursion_limit ≤ h1.recursion_limit; omega) hu
        exact absurd this (by simp)
      · exact absurd h (by simp)
      · exact absurd h (by simp)
  | succ a ih =>
    intro hash hash' item item' b h
    have hf := insert_rounds_fields hash.recursion_limit hash item
    unfold insert at h
    split at h
    · next h1 i1 heq =>
      rw [heq] at hf
      simp only [Option.some.injEq, Prod.mk.injEq] at h
      rw [← h.1, hf.1]
    · next h1 i1 heq =>
      rw [heq] at hf
      have := ih _ hash' _ item' b h
      have hg : (grow_table memory h1 true).1.power = h1.power + 1 := rfl
      rw [hg, hf.1] at this
      omega

theorem insert_same_power (memory : heap) (allocs : Nat) (hash hash' : cuckoo_hash)
    (item item' : _cuckoo_hash_elem) (b : Bool)
    (h : insert memory hash item allocs = some (hash', item', b))
    (hp : hash'.power = hash.power) :
    insert_rounds hash item hash.recursion_limit = (hash', item', true) := by
  have hb := insert_returns_true memory allocs hash hash' item item' b h
  subst hb
  cases allocs with
  | zero =>
    unfold insert at h
    split at h
    · next h1 i1 heq =>
      simp only [Option.some.injEq, Prod.mk.injEq] at h
      rw [heq, h.1, h.2.1]
    · next h1 i1 heq =>
      split at h
      · exact absurd h (by simp)
      · exact absurd h (by simp)
      · exact absurd h (by simp)
  | succ a =>
    have hf := insert_rounds_fields hash.recursion_limit hash item
    unfold insert at h
    split at h
    · next h1 i1 heq =>
      simp only [Option.some.injEq, Prod.mk.injEq] at h
      rw [heq, h.1, h.2.1]
    · next h1 i1 heq =>
      rw [heq] at hf
      have := insert_power_le memory a _ hash' _ item' true h
      have hg : (grow_table memory h1 true).1.power = h1.power + 1 := rfl
      rw [hg, hf.1] at this
      omega

theorem insert_same_power_zero (memory : heap) (hash hash' : cuckoo_hash)
    (item item' : _cuckoo_hash_elem)
    (h : insert memory hash item 0 = some (hash', item', true)) :
    insert_rounds hash item hash.recursion_limit = (hash', item', true) := by
  unfold insert at h
  split at h
  · next h1 i1 heq =>
    simp only [Option.some.injEq, Prod.mk.injEq] at h
    rw [heq, h.1, h.2.1]
  · next h1 i1 heq =>
    split at h
    · next h2 i2 hu =>
      have := undo_rounds_false _ _ h2 _ i2 0 true
        (by show 0 + h1.recursion_limit ≤ h1.recursion_limit; omega) hu
      exact absurd this (by simp)
    · exact absurd h (by simp)
    · exact absurd h (by simp)

/-! ## Growth on the heap `in_place` -/

theorem splice_self (kept start width x : Nat) : splice kept start width x x = x := by
  unfold splice
  split
  · rfl
  · split
    · rfl
    · exact Nat.mod_add_div x _

theorem splice_elem_self (kept index : Nat) (e : _cuckoo_hash_elem) :
    splice_elem kept index e e = e := by
  unfold splice_elem
  simp only [splice_self]

theorem range_map_getD (l : List _cuckoo_hash_elem) (n : Nat) :
    (List.range (l.length + n)).map (fun index => l.getD index zero_elem)
      = l ++ List.replicate n zero_elem := by
  apply List.ext_getElem
  · simp
  · intro i h1 h2
    simp only [List.getElem_map, List.getElem_range, List.getD_eq_getElem?_getD]
    by_cases hlt : i < l.length
    · rw [List.getElem_append_left hlt, List.getElem?_eq_getElem hlt]
      rfl
    · have hle := Nat.le_of_not_lt hlt
      rw [List.getElem_append_right hle, List.getElem?_eq_none hle]
      simp

theorem memset_behind (l : List _cuckoo_hash_elem) (n length : Nat) :
    memset (l ++ List.replicate n zero_elem) l.length length
      = l ++ List.replicate n zero_elem := by
  unfold memset
  simp only
  apply List.ext_getElem
  · simp
  · intro i h1 h2
    simp only [List.getElem_map, List.getElem_range, List.getD_eq_getElem?_getD]
    rw [List.getElem?_eq_getElem h2]
    simp only [Option.getD_some]
    by_cases hlt : i < l.length
    · have hs : ∀ (w o a b : Nat), o + w ≤ 24 →
          splice (l.length * sizeof_elem) (i * sizeof_elem + o) w a b = a := by
        intro w o a b ho
        unfold splice sizeof_elem
        rw [if_pos (by nlinarith)]
      unfold splice_elem
      simp only
      have h0 := hs 8 0
      simp only [Nat.add_zero] at h0
      rw [h0 _ _ (by omega), hs 8 8 _ _ (by omega), hs 4 16 _ _ (by omega),
        hs 4 20 _ _ (by omega)]
    · have hle := Nat.le_of_not_lt hlt
      rw [List.getElem_append_right hle]
      simp only [List.getElem_replicate]
      have : splice_elem (l.length * sizeof_elem + length) i zero_elem zero_elem = zero_elem :=
        splice_elem_self _ _ _
      rw [this, splice_elem_self]

theorem grow_in_place (hash : cuckoo_hash) (hsize : hash.table.length = 2 <<< hash.power) :
    (grow_table in_place hash true).1
      = { hash with table := hash.table ++ List.replicate (2 <<< hash.power) zero_elem,
                    power := hash.power + 1 } := by
  unfold grow_table
  simp only [if_true]
  have hr : realloc (in_place hash.table) hash.table ((2 <<< hash.power) <<< 1)
        ((2 <<< hash.power) <<< 1)
      = hash.table ++ List.replicate (2 <<< hash.power) zero_elem := by
    unfold realloc in_place
    simp only [splice_elem_self]
    have : (2 <<< hash.power) <<< 1 = hash.table.length + 2 <<< hash.power := by
      rw [hsize, Nat.shiftLeft_eq (2 <<< hash.power) 1]
      omega
    rw [this]
    exact range_map_getD _ _
  rw [hr]
  have hm := memset_behind hash.table (2 <<< hash.power) (2 <<< hash.power)
  rw [hsize] at hm
  rw [hm]

theorem init_inv (hashlittle2 : mixer) (power : Nat) :
    Inv hashlittle2 (cuckoo_hash_init power true).1 := by
  have hz : ∀ i, bin_at (cuckoo_hash_init power true).1 i = zero_elem := by
    intro i
    unfold bin_at cuckoo_hash_init
    simp only [if_true, List.getD_eq_getElem?_getD, List.getElem?_replicate]
    split <;> rfl
  refine ⟨?_, ?_, ?_⟩
  · simp [cuckoo_hash_init]
  · intro i hocc
    rw [hz] at hocc
    exact absurd rfl hocc
  · intro i j hi
    have := hi.1
    rw [hz] at this
    exact absurd rfl this

theorem remove_bin_at (hash hash' : cuckoo_hash) (i : Nat)
    (h : cuckoo_hash_remove hash (some i) = some hash') :
    (∀ j, bin_at hash' j =
      if i = j ∧ i < hash.table.length then
        { bin_at hash i with hash1 := 0, hash2 := 0 } else bin_at hash j) ∧
    mask hash' = mask hash ∧ hash'.table.length = hash.table.length ∧
    hash'.power = hash.power := by
  simp only [cuckoo_hash_remove, Option.some.injEq] at h
  have ht : hash'.table
      = hash.table.set i { bin_at hash i with hash1 := 0, hash2 := 0 } := by
    rw [← h]; rfl
  have hp : hash'.power = hash.power := by rw [← h]; rfl
  refine ⟨?_, ?_, ?_, hp⟩
  · intro j
    have := bin_at_bin_store hash i j { bin_at hash i with hash1 := 0, hash2 := 0 }
    unfold bin_at bin_store at this
    unfold bin_at
    rw [ht]
    exact this
  · unfold mask
    rw [hp]
  · rw [ht, List.length_set]

theorem reachable_insert_all (hashlittle2 : mixer) (allocs : Nat) (data : List (Nat × Nat)) :
    ∀ (hash hash' : cuckoo_hash), Reachable hashlittle2 hash →
      insert_all hashlittle2 in_place allocs hash data = some hash' →
      Reachable hashlittle2 hash' := by
  induction data with
  | nil =>
    intro hash hash' hr h
    simp only [insert_all, Option.some.injEq] at h
    rw [← h]
    exact hr
  | cons d rest ih =>
    intro hash hash' hr h
    unfold insert_all at h
    split at h
    · exact absurd h (by simp)
    · exact absurd h (by simp)
    · next h1 r _ hins =>
      exact ih h1 hash' (Reachable.insert in_place d.1 d.2 allocs hr hins (Or.inr rfl)) h

/-- For every table, key, value and allocator behaviour, `cuckoo_hash_insert` either
aborts or returns `NULL` or an existing record: the failure sentinel never comes
back. -/
theorem cuckoo_hash_insert_never_failed (hashlittle2 : mixer) (memory : heap)
    (hash hash' : cuckoo_hash) (key value allocs : Nat) :
    cuckoo_hash_insert hashlittle2 memory hash key value allocs
      ≠ some (hash', insert_return.CUCKOO_HASH_FAILED) := by
  intro h
  unfold cuckoo_hash_insert at h
  simp only at h
  split at h
  · simp at h
  · split at h
    · simp at h
    · simp at h
    · next h1 i1 hins =>
      exact absurd (insert_returns_true memory allocs _ _ _ _ _ hins) (by simp)

/-- When no reallocation succeeds the heap is never read. -/
theorem insert_no_alloc (memory : heap) (hash : cuckoo_hash) (item : _cuckoo_hash_elem) :
    insert memory hash item 0 = insert in_place hash item 0 := by
  unfold insert
  rfl

theorem cuckoo_hash_insert_no_alloc (hashlittle2 : mixer) (memory : heap)
    (hash : cuckoo_hash) (key value : Nat) :
    cuckoo_hash_insert hashlittle2 memory hash key value 0
      = cuckoo_hash_insert hashlittle2 in_place hash key value 0 := by
  unfold cuckoo_hash_insert
  simp only [insert_no_alloc memory]

/-! ## Further lemmas: rounds, undo, slot counts, runs -/

theorem and_mask_lt (hash : cuckoo_hash) (hsize : hash.table.length = 2 <<< hash.power)
    (h : Nat) : h &&& mask hash < hash.table.length := by
  rw [and_mask, hsize, Nat.shiftLeft_eq, ← Nat.pow_succ']
  have h1 : h % 2 ^ min (hash.power + 1) 32 < 2 ^ min (hash.power + 1) 32 :=
    Nat.mod_lt _ (Nat.pos_pow_of_pos _ (by decide))
  have h2 : 2 ^ min (hash.power + 1) 32 ≤ 2 ^ (hash.power + 1) :=
    Nat.pow_le_pow_right (by decide) (Nat.min_le_left _ _)
  exact Nat.lt_of_lt_of_le h1 h2

theorem set_getD_self (l : List _cuckoo_hash_elem) (d : _cuckoo_hash_elem) :
    ∀ s, l.set s (l.getD s d) = l := by
  induction l with
  | nil => intro s; rfl
  | cons a t ih =>
    intro s
    cases s with
    | zero => rfl
    | succ s =>
      show a :: t.set s (t.getD s d) = a :: t
      rw [ih s]

theorem bin_store_undo (hash : cuckoo_hash) (s : Nat) (item : _cuckoo_hash_elem) :
    bin_store (bin_store hash s item) s (bin_at hash s) = hash := by
  unfold bin_store bin_at
  simp only [List.set_set]
  rw [set_getD_self]

theorem undo_round_inverse (hash : cuckoo_hash) (item : _cuckoo_hash_elem)
    (hocc : (bin_at hash (item.hash1 &&& mask hash)).hash1
      ≠ (bin_at hash (item.hash1 &&& mask hash)).hash2)
    (hlive : (bin_at hash (item.hash1 &&& mask hash)).hash1 &&& mask hash
      = item.hash1 &&& mask hash) (m depth : Nat) :
    undo_rounds (bin_store hash (item.hash1 &&& mask hash) item)
        { hash_item := (bin_at hash (item.hash1 &&& mask hash)).hash_item,
          hash1 := (bin_at hash (item.hash1 &&& mask hash)).hash2,
          hash2 := (bin_at hash (item.hash1 &&& mask hash)).hash1 } (m + 1) depth
      = undo_rounds hash item m (depth + 1) := by
  have hlt := lt_length_of_occupied hash _ hocc
  have hm : mask (bin_store hash (item.hash1 &&& mask hash) item) = mask hash := rfl
  have hb : bin_at (bin_store hash (item.hash1 &&& mask hash) item) (item.hash1 &&& mask hash)
      = item := by
    rw [bin_at_bin_store, if_pos ⟨rfl, hlt⟩]
  rw [undo_rounds]
  simp only [hm, hlive, hb, ne_eq, not_true_eq_false, if_false]
  exact congrArg (fun h => undo_rounds h item m (depth + 1))
    (bin_store_undo hash (item.hash1 &&& mask hash) item)

theorem undo_after_rounds (n : Nat) :
    ∀ (hash hash' : cuckoo_hash) (item item' : _cuckoo_hash_elem),
      insert_rounds hash item n = (hash', item', false) →
      ∀ m depth, undo_rounds hash' item' (n + m) depth = undo_rounds hash item m (depth + n) := by
  induction n with
  | zero =>
    intro hash hash' item item' h m depth
    simp only [insert_rounds, Prod.mk.injEq] at h
    rw [← h.1, ← h.2.1, Nat.zero_add, Nat.add_zero]
  | succ n ih =>
    intro hash hash' item item' h m depth
    unfold insert_rounds at h
    simp only at h
    split at h
    · simp at h
    · next hcond =>
      have hocc : (bin_at hash (item.hash1 &&& mask hash)).hash1
          ≠ (bin_at hash (item.hash1 &&& mask hash)).hash2 := fun e => hcond (Or.inl e)
      have hlive : (bin_at hash (item.hash1 &&& mask hash)).hash1 &&& mask hash
          = item.hash1 &&& mask hash := by
        by_contra e; exact hcond (Or.inr e)
      have := ih _ hash' _ item' h (m + 1) depth
      rw [show n + 1 + m = n + (m + 1) by omega, this,
        undo_round_inverse hash item hocc hlive m (depth + n),
        show depth + n + 1 = depth + (n + 1) by omega]

theorem steady_congr (hash hash' : cuckoo_hash) (ht : hash'.table = hash.table)
    (hp : hash'.power = hash.power) (h : steady hash) : steady hash' := by
  have hb : ∀ i, bin_at hash' i = bin_at hash i := by
    intro i; unfold bin_at; rw [ht]
  have hm : mask hash' = mask hash := by unfold mask; rw [hp]
  intro i hi
  rw [hb i] at hi ⊢
  rw [hm]
  exact h i hi

theorem steady_bin_store (hash : cuckoo_hash) (item : _cuckoo_hash_elem) (h : steady hash) :
    steady (bin_store hash (item.hash1 &&& mask hash) item) := by
  intro i hi
  have hm : mask (bin_store hash (item.hash1 &&& mask hash) item) = mask hash := rfl
  rw [bin_at_bin_store] at hi ⊢
  rw [hm]
  split
  · next hc => exact Or.inl hc.1.symm
  · next hc =>
    rw [if_neg hc] at hi
    exact h i hi

theorem insert_rounds_steady (fuel : Nat) :
    ∀ (hash : cuckoo_hash) (item : _cuckoo_hash_elem), steady hash →
      steady (insert_rounds hash item fuel).1 := by
  induction fuel with
  | zero => intro hash item h; exact h
  | succ n ih =>
    intro hash item h
    unfold insert_rounds
    simp only
    split
    · exact steady_bin_store hash item h
    · exact ih _ _ (steady_bin_store hash item h)

theorem init_bin_at (power : Nat) (i : Nat) :
    bin_at (cuckoo_hash_init power true).1 i = zero_elem := by
  unfold bin_at cuckoo_hash_init
  simp only [if_true, List.getD_eq_getElem?_getD, List.getElem?_replicate]
  split <;> rfl

theorem occ_cons (a : _cuckoo_hash_elem) (t : List _cuckoo_hash_elem) :
    occ (a :: t) = (if a.hash1 ≠ a.hash2 then 1 else 0) + occ t := by
  unfold occ
  by_cases ha : a.hash1 = a.hash2
  · simp [List.filter_cons, ha]
  · simp [List.filter_cons, ha]
    omega

theorem occ_set (l : List _cuckoo_hash_elem) (x d : _cuckoo_hash_elem) :
    ∀ i, i < l.length →
      occ (l.set i x) + (if (l.getD i d).hash1 ≠ (l.getD i d).hash2 then 1 else 0)
        = occ l + (if x.hash1 ≠ x.hash2 then 1 else 0) := by
  induction l with
  | nil => intro i h; exact absurd h (Nat.not_lt_zero _)
  | cons a t ih =>
    intro i h
    cases i with
    | zero =>
      show occ (x :: t) + (if a.hash1 ≠ a.hash2 then 1 else 0)
        = occ (a :: t) + (if x.hash1 ≠ x.hash2 then 1 else 0)
      rw [occ_cons, occ_cons]
      omega
    | succ i =>
      have := ih i (Nat.lt_of_succ_lt_succ h)
      show occ (a :: t.set i x) + (if (t.getD i d).hash1 ≠ (t.getD i d).hash2 then 1 else 0)
        = occ (a :: t) + (if x.hash1 ≠ x.hash2 then 1 else 0)
      rw [occ_cons, occ_cons]
      omega

theorem occupied_bin_store (hash : cuckoo_hash) (i : Nat) (x : _cuckoo_hash_elem)
    (hlt : i < hash.table.length) :
    occupied (bin_store hash i x)
        + (if (bin_at hash i).hash1 ≠ (bin_at hash i).hash2 then 1 else 0)
      = occupied hash + (if x.hash1 ≠ x.hash2 then 1 else 0) :=
  occ_set hash.table x zero_elem i hlt

theorem occupied_bin_store_le (hash : cuckoo_hash) (i : Nat) (x : _cuckoo_hash_elem) :
    occupied (bin_store hash i x) ≤ occupied hash + 1 ∧
    ((bin_at hash i).hash1 ≠ (bin_at hash i).hash2 →
      occupied (bin_store hash i x) ≤ occupied hash) := by
  by_cases hlt : i < hash.table.length
  · have := occupied_bin_store hash i x hlt
    constructor
    · split at this <;> split at this <;> omega
    · intro hocc
      rw [if_pos hocc] at this
      split at this <;> omega
  · have : bin_store hash i x = hash := by
      unfold bin_store
      rw [List.set_eq_of_length_le (Nat.le_of_not_lt hlt)]
    rw [this]
    exact ⟨Nat.le_succ _, fun _ => Nat.le_refl _⟩

theorem insert_rounds_occupied (fuel : Nat) :
    ∀ (hash : cuckoo_hash) (item : _cuckoo_hash_elem),
      occupied (insert_rounds hash item fuel).1 ≤ occupied hash + 1 ∧
      ((insert_rounds hash item fuel).2.2 = false →
        occupied (insert_rounds hash item fuel).1 ≤ occupied hash) := by
  induction fuel with
  | zero => intro hash item; exact ⟨Nat.le_succ _, fun _ => Nat.le_refl _⟩
  | succ n ih =>
    intro hash item
    unfold insert_rounds
    simp only
    split
    · exact ⟨(occupied_bin_store_le hash _ item).1, fun h => by simp at h⟩
    · next hcond =>
      have hocc : (bin_at hash (item.hash1 &&& mask hash)).hash1
          ≠ (bin_at hash (item.hash1 &&& mask hash)).hash2 := fun e => hcond (Or.inl e)
      have h1 := (occupied_bin_store_le hash (item.hash1 &&& mask hash) item).2 hocc
      have h2 := ih (bin_store hash (item.hash1 &&& mask hash) item)
        { hash_item := (bin_at hash (item.hash1 &&& mask hash)).hash_item,
          hash1 := (bin_at hash (item.hash1 &&& mask hash)).hash2,
          hash2 := (bin_at hash (item.hash1 &&& mask hash)).hash1 }
      exact ⟨by omega, fun h => by have := h2.2 h; omega⟩

theorem occ_append_zero (l : List _cuckoo_hash_elem) (n : Nat) :
    occ (l ++ List.replicate n zero_elem) = occ l := by
  induction l with
  | nil =>
    induction n with
    | zero => rfl
    | succ n ih =>
      show occ (zero_elem :: List.replicate n zero_elem) = occ []
      rw [occ_cons]
      simp only [List.nil_append] at ih
      rw [ih]
      rfl
  | cons a t ih =>
    show occ (a :: (t ++ List.replicate n zero_elem)) = occ (a :: t)
    rw [occ_cons, occ_cons, ih]

theorem occupied_grow (hash : cuckoo_hash) (hsize : hash.table.length = 2 <<< hash.power) :
    occupied (grow_table in_place hash true).1 = occupied hash := by
  rw [grow_in_place hash hsize]
  exact occ_append_zero hash.table _

theorem insert_fields (memory : heap) (allocs : Nat) :
    ∀ (hash hash' : cuckoo_hash) (item item' : _cuckoo_hash_elem) (b : Bool),
      insert memory hash item allocs = some (hash', item', b) →
      hash'.count = hash.count ∧
      (hash.table.length = 2 <<< hash.power → hash'.table.length = 2 <<< hash'.power) := by
  induction allocs with
  | zero =>
    intro hash hash' item item' b h
    have hb := insert_returns_true memory 0 hash hash' item item' b h
    subst hb
    have hr := insert_same_power_zero memory hash hash' item item' h
    have hf := insert_rounds_fields hash.recursion_limit hash item
    rw [hr] at hf
    exact ⟨hf.2.1, fun hs => by rw [hf.2.2.2, hf.1]; exact hs⟩
  | succ a ih =>
    intro hash hash' item item' b h
    have hf := insert_rounds_fields hash.recursion_limit hash item
    unfold insert at h
    split at h
    · next h1 i1 heq =>
      rw [heq] at hf
      simp only [Option.some.injEq, Prod.mk.injEq] at h
      rw [← h.1]
      exact ⟨hf.2.1, fun hs => by rw [hf.2.2.2, hf.1]; exact hs⟩
    · next h1 i1 heq =>
      rw [heq] at hf
      have h3 := ih _ hash' _ item' b h
      have hg := grow_table_fields memory h1
      have h5 : hash'.count = (grow_table memory h1 true).1.count := h3.1
      have h6 : h1.count = hash.count := hf.2.1
      refine ⟨by rw [h5, hg.2.1, h6], fun _ => h3.2 ?_⟩
      rw [hg.2.2.2, hg.1]

theorem insert_occupied (allocs : Nat) :
    ∀ (hash hash' : cuckoo_hash) (item item' : _cuckoo_hash_elem) (b : Bool),
      hash.table.length = 2 <<< hash.power →
      insert in_place hash item allocs = some (hash', item', b) →
      occupied hash' ≤ occupied hash + 1 := by
  induction allocs with
  | zero =>
    intro hash hash' item item' b _ h
    have hb := insert_returns_true in_place 0 hash hash' item item' b h
    subst hb
    have hr := insert_same_power_zero in_place hash hash' item item' h
    have ho := insert_rounds_occupied hash.recursion_limit hash item
    rw [hr] at ho
    exact ho.1
  | succ a ih =>
    intro hash hash' item item' b hsize h
    have ho := insert_rounds_occupied hash.recursion_limit hash item
    have hf := insert_rounds_fields hash.recursion_limit hash item
    unfold insert at h
    split at h
    · next h1 i1 heq =>
      rw [heq] at ho
      simp only [Option.some.injEq, Prod.mk.injEq] at h
      rw [← h.1]
      exact ho.1
    · next h1 i1 heq =>
      rw [heq] at ho hf
      have hs1 : h1.table.length = 2 <<< h1.power := by
        rw [hf.2.2.2, hf.1]; exact hsize
      have h3 := ih _ hash' _ item' b (grow_table_fields in_place h1).2.2.2 h
      rw [occupied_grow h1 hs1] at h3
      have h4 : occupied h1 ≤ occupied hash := ho.2 rfl
      omega

theorem cuckoo_hash_insert_effect (hashlittle2 : mixer) (memory : heap)
    (hash hash' : cuckoo_hash) (key value allocs : Nat) (r : insert_return)
    (h : cuckoo_hash_insert hashlittle2 memory hash key value allocs = some (hash', r)) :
    (r = insert_return.NULL ∧ hash'.count = (hash.count + 1) % 2 ^ 64 ∧
      hash.power ≤ hash'.power ∧
      (hash.table.length = 2 <<< hash.power →
        hash'.table.length = 2 <<< hash'.power ∧
        (hash'.power = hash.power ∨ memory = in_place →
          occupied hash' ≤ occupied hash + 1))) ∨
    (r ≠ insert_return.NULL ∧ hash' = hash) := by
  unfold cuckoo_hash_insert at h
  simp only at h
  split at h
  · simp only [Option.some.injEq, Prod.mk.injEq] at h
    right
    rw [← h.1, ← h.2]
    exact ⟨by simp, rfl⟩
  · split at h
    · exact absurd h (by simp)
    · next h1 i1 hi =>
      simp only [Option.some.injEq, Prod.mk.injEq] at h
      have hf := insert_fields memory allocs _ _ _ _ _ hi
      have hle := insert_power_le memory allocs _ _ _ _ _ hi
      have hp : hash'.power = h1.power := by rw [← h.1]
      have ht : hash'.table = h1.table := by rw [← h.1]
      have ho : occupied hash' = occupied h1 := by unfold occupied; rw [ht]
      have hc : hash'.count = (h1.count + 1) % 2 ^ 64 := by rw [← h.1]
      left
      refine ⟨h.2.symm, by rw [hc, hf.1], by rw [hp]; exact hle, ?_⟩
      intro hsize
      refine ⟨by rw [ht, hp]; exact hf.2 hsize, ?_⟩
      intro hgrow
      rw [ho]
      rcases hgrow with hsame | hm
      · have hr := insert_same_power memory allocs hash h1 _ i1 true hi (by rw [← hp, hsame])
        have hro := insert_rounds_occupied hash.recursion_limit hash
          { hash_item := { key := key, value := value },
            hash1 := (compute_hash hashlittle2 key).1,
            hash2 := (compute_hash hashlittle2 key).2 }
        rw [hr] at hro
        exact hro.1
      · subst hm
        exact insert_occupied allocs _ _ _ _ _ hsize hi
    · next h1 i1 hi =>
      exact absurd (insert_returns_true memory allocs _ _ _ _ _ hi) (by simp)

theorem cuckoo_hash_remove_effect (hash hash' : cuckoo_hash) (i : Nat)
    (hlt : i < hash.table.length)
    (hocc : (bin_at hash i).hash1 ≠ (bin_at hash i).hash2)
    (h : cuckoo_hash_remove hash (some i) = some hash') :
    occupied hash' + 1 = occupied hash ∧
    hash'.count = (hash.count + 2 ^ 64 - 1) % 2 ^ 64 := by
  simp only [cuckoo_hash_remove, Option.some.injEq] at h
  have := occupied_bin_store hash i { bin_at hash i with hash1 := 0, hash2 := 0 } hlt
  rw [if_pos hocc, if_neg (by simp)] at this
  constructor
  · have ht : hash'.table
        = (bin_store hash i { bin_at hash i with hash1 := 0, hash2 := 0 }).table := by
      rw [← h]
    have ho : occupied hash'
        = occupied (bin_store hash i { bin_at hash i with hash1 := 0, hash2 := 0 }) := by
      unfold occupied
      rw [ht]
    rw [ho]; omega
  · rw [← h]

theorem run_step_facts (hashlittle2 : mixer) (memory : heap) (s s' : run_state)
    (o : operation) (h : run_step hashlittle2 memory s o = some s') :
    s.hash.power ≤ s'.hash.power ∧ s.inserted ≤ s'.inserted ∧
    (s.hash.table.length = 2 <<< s.hash.power →
      s'.hash.table.length = 2 <<< s'.hash.power) := by
  cases o with
  | insert key value allocs =>
    simp only [run_step] at h
    split at h
    · exact absurd h (by simp)
    · next hash' hins =>
      simp only [Option.some.injEq] at h
      subst h
      rcases cuckoo_hash_insert_effect hashlittle2 memory _ _ _ _ _ _ hins with
        ⟨_, _, h3, h4⟩ | ⟨h3, _⟩
      · exact ⟨h3, Nat.le_succ _, fun hs => (h4 hs).1⟩
      · exact absurd rfl h3
    · next hash' r hne hins =>
      simp only [Option.some.injEq] at h
      subst h
      rcases cuckoo_hash_insert_effect hashlittle2 memory _ _ _ _ _ _ hins with
        ⟨h3, _⟩ | ⟨_, h3⟩
      · exact absurd h3 hne
      · subst h3
        exact ⟨Nat.le_refl _, Nat.le_refl _, fun hs => hs⟩
  | remove index =>
    simp only [run_step] at h
    split at h
    · split at h
      · exact absurd h (by simp)
      · next hash' hrem =>
        simp only [Option.some.injEq] at h
        subst h
        obtain ⟨-, -, hlen, hp⟩ := remove_bin_at _ _ _ hrem
        exact ⟨by show s.hash.power ≤ hash'.power; omega, Nat.le_refl _,
          fun hs => by show hash'.table.length = 2 <<< hash'.power; rw [hlen, hp]; exact hs⟩
    · exact absurd h (by simp)

theorem run_step_count (hashlittle2 : mixer) (memory : heap) (s s' : run_state)
    (o : operation) (h : run_step hashlittle2 memory s o = some s')
    (hc : s.hash.count < 2 ^ 64)
    (hm : (s.hash.count + s.removed) % 2 ^ 64 = s.inserted % 2 ^ 64) :
    s'.hash.count < 2 ^ 64 ∧
    (s'.hash.count + s'.removed) % 2 ^ 64 = s'.inserted % 2 ^ 64 := by
  cases o with
  | insert key value allocs =>
    simp only [run_step] at h
    split at h
    · exact absurd h (by simp)
    · next hash' hins =>
      simp only [Option.some.injEq] at h
      subst h
      rcases cuckoo_hash_insert_effect hashlittle2 memory _ _ _ _ _ _ hins with
        ⟨_, h3, _⟩ | ⟨h3, _⟩
      · refine ⟨by rw [h3]; exact Nat.mod_lt _ (by decide), ?_⟩
        show (hash'.count + s.removed) % 2 ^ 64 = (s.inserted + 1) % 2 ^ 64
        rw [h3]
        omega
      · exact absurd rfl h3
    · next hash' r hne hins =>
      simp only [Option.some.injEq] at h
      subst h
      rcases cuckoo_hash_insert_effect hashlittle2 memory _ _ _ _ _ _ hins with
        ⟨h3, _⟩ | ⟨_, h3⟩
      · exact absurd h3 hne
      · subst h3
        exact ⟨hc, hm⟩
  | remove index =>
    simp only [run_step] at h
    split at h
    · split at h
      · exact absurd h (by simp)
      · next hash' hrem =>
        simp only [Option.some.injEq] at h
        subst h
        have h4 : hash'.count = (s.hash.count + 2 ^ 64 - 1) % 2 ^ 64 := by
          simp only [cuckoo_hash_remove, Option.some.injEq] at hrem
          rw [← hrem]
        refine ⟨by rw [h4]; exact Nat.mod_lt _ (by decide), ?_⟩
        show (hash'.count + (s.removed + 1)) % 2 ^ 64 = s.inserted % 2 ^ 64
        rw [h4]
        omega
    · exact absurd h (by simp)

theorem run_step_inv (hashlittle2 : mixer) (memory : heap) (s s' : run_state)
    (o : operation) (hs : tally_ok s) (hsize : s.hash.table.length = 2 <<< s.hash.power)
    (h : run_step hashlittle2 memory s o = some s')
    (hgrow : s'.hash.power = s.hash.power ∨ memory = in_place)
    (hlt : s'.inserted < 2 ^ 64) :
    tally_ok s' := by
  obtain ⟨h1, h2⟩ := hs
  cases o with
  | insert key value allocs =>
    simp only [run_step] at h
    split at h
    · exact absurd h (by simp)
    · next hash' hins =>
      simp only [Option.some.injEq] at h
      subst h
      rcases cuckoo_hash_insert_effect hashlittle2 memory _ _ _ _ _ _ hins with
        ⟨_, h4, _, h5⟩ | ⟨h3, _⟩
      · have h3 := (h5 hsize).2 hgrow
        simp only at hlt
        have : (s.hash.count + 1) % 2 ^ 64 = s.hash.count + 1 :=
          Nat.mod_eq_of_lt (by omega)
        rw [this] at h4
        exact ⟨by show occupied hash' ≤ hash'.count; omega,
          by show hash'.count + s.removed = s.inserted + 1; omega⟩
      · exact absurd rfl h3
    · next hash' r hne hins =>
      simp only [Option.some.injEq] at h
      subst h
      rcases cuckoo_hash_insert_effect hashlittle2 memory _ _ _ _ _ _ hins with
        ⟨h3, _⟩ | ⟨_, h3⟩
      · exact absurd h3 hne
      · subst h3
        exact ⟨h1, h2⟩
  | remove index =>
    simp only [run_step] at h
    split at h
    · next hv =>
      split at h
      · exact absurd h (by simp)
      · next hash' hrem =>
        simp only [Option.some.injEq] at h
        subst h
        obtain ⟨h3, h4⟩ := cuckoo_hash_remove_effect _ _ _ hv.1 hv.2 hrem
        simp only at hlt
        have : (s.hash.count + 2 ^ 64 - 1) % 2 ^ 64 = s.hash.count - 1 := by
          have hpos : 0 < s.hash.count := by omega
          have : s.hash.count + 2 ^ 64 - 1 = (s.hash.count - 1) + 2 ^ 64 := by omega
          rw [this, Nat.add_mod_right]
          exact Nat.mod_eq_of_lt (by omega)
        rw [this] at h4
        exact ⟨by show occupied hash' ≤ hash'.count; omega,
          by show hash'.count + (s.removed + 1) = s.inserted; omega⟩
    · exact absurd h (by simp)

theorem run_facts (hashlittle2 : mixer) (memory : heap) (ops : List operation) :
    ∀ (s s' : run_state), run hashlittle2 memory s ops = some s' →
      s.hash.power ≤ s'.hash.power ∧ s.inserted ≤ s'.inserted ∧
      (s.hash.table.length = 2 <<< s.hash.power →
        s'.hash.table.length = 2 <<< s'.hash.power) := by
  induction ops with
  | nil =>
    intro s s' h
    simp only [run, Option.some.injEq] at h
    rw [h]
    exact ⟨Nat.le_refl _, Nat.le_refl _, fun hs => hs⟩
  | cons o rest ih =>
    intro s s' h
    unfold run at h
    split at h
    · exact absurd h (by simp)
    · next s1 hstep =>
      have h1 := run_step_facts hashlittle2 memory s s1 o hstep
      have h2 := ih s1 s' h
      exact ⟨Nat.le_trans h1.1 h2.1, Nat.le_trans h1.2.1 h2.2.1, fun hs => h2.2.2 (h1.2.2 hs)⟩

theorem run_count (hashlittle2 : mixer) (memory : heap) (ops : List operation) :
    ∀ (s s' : run_state), run hashlittle2 memory s ops = some s' →
      s.hash.count < 2 ^ 64 →
      (s.hash.count + s.removed) % 2 ^ 64 = s.inserted % 2 ^ 64 →
      s'.hash.count < 2 ^ 64 ∧
      (s'.hash.count + s'.removed) % 2 ^ 64 = s'.inserted % 2 ^ 64 := by
  induction ops with
  | nil =>
    intro s s' h hc hm
    simp only [run, Option.some.injEq] at h
    rw [← h]
    exact ⟨hc, hm⟩
  | cons o rest ih =>
    intro s s' h hc hm
    unfold run at h
    split at h
    · exact absurd h (by simp)
    · next s1 hstep =>
      have h1 := run_step_count hashlittle2 memory s s1 o hstep hc hm
      exact ih s1 s' h h1.1 h1.2

theorem run_inv (hashlittle2 : mixer) (memory : heap) (ops : List operation) :
    ∀ (s s' : run_state), tally_ok s → s.hash.table.length = 2 <<< s.hash.power →
      run hashlittle2 memory s ops = some s' →
      s'.hash.power = s.hash.power ∨ memory = in_place →
      s'.inserted < 2 ^ 64 → tally_ok s' := by
  induction ops with
  | nil =>
    intro s s' hs _ h _ _
    simp only [run, Option.some.injEq] at h
    rw [← h]; exact hs
  | cons o rest ih =>
    intro s s' hs hsize h hgrow hlt
    unfold run at h
    split at h
    · exact absurd h (by simp)
    · next s1 hstep =>
      have h1 := run_step_facts hashlittle2 memory s s1 o hstep
      have h2 := run_facts hashlittle2 memory rest s1 s' h
      have hg1 : s1.hash.power = s.hash.power ∨ memory = in_place := by
        rcases hgrow with hp | hm
        · left; omega
        · right; exact hm
      have hg2 : s'.hash.power = s1.hash.power ∨ memory = in_place := by
        rcases hgrow with hp | hm
        · left; omega
        · right; exact hm
      exact ih s1 s'
        (run_step_inv hashlittle2 memory s s1 o hs hsize hstep hg1 (by omega))
        (h1.2.2 hsize) h hg2 hlt

theorem occupied_init (power : Nat) : occupied (cuckoo_hash_init power true).1 = 0 := by
  have := occ_append_zero [] (2 <<< power)
  exact this

theorem next_scan_none (hash : cuckoo_hash) (bin_count mask : Nat) (fuel : Nat) :
    ∀ i, next_scan hash bin_count mask fuel i = none := by
  induction fuel with
  | zero => intro i; rfl
  | succ n ih =>
    intro i
    unfold next_scan
    split
    · rfl
    · simp only
      rw [if_neg (by omega)]
      exact ih (i + 1)

/-- For every table, the block `grow_table` asks `realloc` for is smaller than the
array it already has. -/
theorem grow_requests_short (hash : cuckoo_hash) :
    (grow_table_requests hash).realloc_size < (2 <<< hash.power) * sizeof_elem := by
  show (2 <<< hash.power) <<< 1 < (2 <<< hash.power) * 24
  have hpos : 0 < 2 <<< hash.power := by
    rw [Nat.shiftLeft_eq]
    exact Nat.mul_pos (by decide) (Nat.pos_pow_of_pos _ (by decide))
  rw [Nat.shiftLeft_eq (2 <<< hash.power) 1]
  omega

theorem table_two_keys_distinct :
    ∀ i j, (bin_at table_two i).hash1 ≠ (bin_at table_two i).hash2 →
      (bin_at table_two j).hash1 ≠ (bin_at table_two j).hash2 →
      (bin_at table_two i).hash_item.key = (bin_at table_two j).hash_item.key → i = j := by
  have hb : ∀ i, i < 4 → ∀ j, j < 4 →
      (bin_at table_two i).hash1 ≠ (bin_at table_two i).hash2 →
      (bin_at table_two j).hash1 ≠ (bin_at table_two j).hash2 →
      (bin_at table_two i).hash_item.key = (bin_at table_two j).hash_item.key → i = j := by
    decide
  intro i j hi hj
  exact hb i (lt_length_of_occupied table_two i hi) j (lt_length_of_occupied table_two j hj)
    hi hj

/-- For a table of `2 << power` slots with `power` below 31, so that `2 << power` fits
32 bits, and every hash value `h`: the mask is `(2 << power) - 1`, the index
`h & mask` is below `2 * 2 ^ power`, the number of slots of the array of the
embedding; and the tables the loops of `insert` and of `undo_insert` go through keep
that number of slots and the same mask. -/
theorem slot_index_in_range (hash : cuckoo_hash) (h : Nat)
    (hp : hash.power < 31) (hsize : hash.table.length = 2 <<< hash.power) :
    mask hash = 2 <<< hash.power - 1 ∧
    h &&& (2 <<< hash.power - 1) < 2 * 2 ^ hash.power ∧
    h &&& mask hash < hash.table.length ∧
    hash.table[h &&& mask hash]? = some (bin_at hash (h &&& mask hash)) ∧
    (∀ (item : _cuckoo_hash_elem) (fuel : Nat),
      (insert_rounds hash item fuel).1.table.length
        = 2 <<< (insert_rounds hash item fuel).1.power ∧
      mask (insert_rounds hash item fuel).1 = mask hash) ∧
    (∀ (item item' : _cuckoo_hash_elem) (hash' : cuckoo_hash) (fuel depth : Nat) (b : Bool),
      undo_rounds hash item fuel depth = some (hash', item', b) →
      hash'.table.length = 2 <<< hash'.power ∧ mask hash' = mask hash) := by
  have hm : mask hash = 2 <<< hash.power - 1 := by
    rw [mask_eq, Nat.min_eq_left (by omega), Nat.shiftLeft_eq, Nat.pow_succ']
  have hlt := and_mask_lt hash hsize h
  refine ⟨hm, ?_, hlt, ?_, ?_, ?_⟩
  · rw [← hm, ← Nat.shiftLeft_eq, ← hsize]
    exact hlt
  · unfold bin_at
    rw [List.getD_eq_getElem?_getD, List.getElem?_eq_getElem hlt]
    rfl
  · intro item fuel
    have := insert_rounds_fields fuel hash item
    refine ⟨by rw [this.2.2.2, this.1]; exact hsize, ?_⟩
    unfold mask
    rw [this.1]
  · intro item item' hash' fuel depth b hu
    have := undo_rounds_fields fuel hash hash' item item' depth b hu
    refine ⟨by rw [this.2.2.2, this.1]; exact hsize, ?_⟩
    unfold mask
    rw [this.1]

/-! ## The claims -/

/-- C1 (fails on the code): keys 7 and 6 are inserted into the table of
`cuckoo_hash_init (1)`; inserting key 5 with value 50 then uses up its 16 rounds
(key 6 is in hand at the end), grows the table and returns `NULL` ("inserted new"),
yet the lookup of key 5 in the resulting table is `NULL`: the record of key 5 stayed
in slot 1 of the old half, while its `hash1` maps to slot 5 under the new mask.  The
heap is `in_place`, the one on which growth keeps every old slot and finds zero
behind them. -/
theorem insert_then_lookup_lost_after_growth :
    insert_all fixed_mixer in_place 0 table_init1 [(7, 70), (6, 60)] = some table_two ∧
    insert_rounds table_two
        { hash_item := { key := 5, value := 50 }, hash1 := 0x1269aa5d, hash2 := 0x7e0940a5 } 16
      = (table_stuck,
         { hash_item := { key := 6, value := 60 }, hash1 := 0x49d2d313, hash2 := 0x589eb531 },
         false) ∧
    (grow_table in_place table_stuck true).1.power = 2 ∧
    cuckoo_hash_insert fixed_mixer in_place table_two 5 50 1
      = some (table_grown, insert_return.NULL) ∧
    cuckoo_hash_lookup fixed_mixer table_grown 5 = none := by
  decide

/-- C2 (fails on the code): the test's insertion loop on the distinct keys 7, 6, 5
from `cuckoo_hash_init (1)` succeeds on every key (on the heap `in_place`, where
growth keeps every old slot), but the test's lookup loop then finds only one of the
three keys: keys 7 and 5 are absent. -/
theorem test_lookup_misses_inserted_key :
    insert_all fixed_mixer in_place 1 table_init1 [(7, 70), (6, 60), (5, 50)] = some table_grown ∧
    cuckoo_hash_lookup fixed_mixer table_grown 7 = none ∧
    cuckoo_hash_lookup fixed_mixer table_grown 6 = some 3 ∧
    cuckoo_hash_lookup fixed_mixer table_grown 5 = none ∧
    found fixed_mixer table_grown [7, 6, 5] = 1 := by
  decide

/-- C4 (fails on the code): inserting key 5 into `table_two` when `realloc` fails.
The 16 rounds leave key 6 in hand, `undo_insert` puts every slot back and ends with
the record of key 5 in hand, but it returns `false`, so `insert` runs into
`assert (false)`: `cuckoo_hash_insert` aborts instead of returning
`CUCKOO_HASH_FAILED`. -/
theorem insert_aborts_when_growth_fails :
    insert_rounds table_two
        { hash_item := { key := 5, value := 50 }, hash1 := 0x1269aa5d, hash2 := 0x7e0940a5 } 16
      = (table_stuck,
         { hash_item := { key := 6, value := 60 }, hash1 := 0x49d2d313, hash2 := 0x589eb531 },
         false) ∧
    undo_insert table_stuck
        { hash_item := { key := 6, value := 60 }, hash1 := 0x49d2d313, hash2 := 0x589eb531 }
      = some (table_two,
          { hash_item := { key := 5, value := 50 }, hash1 := 0x1269aa5d, hash2 := 0x7e0940a5 },
          false) ∧
    (∀ memory, cuckoo_hash_insert fixed_mixer memory table_two 5 50 0 = none) := by
  refine ⟨by decide, by decide, ?_⟩
  intro memory
  rw [cuckoo_hash_insert_no_alloc]
  decide

/-- C5: when `cuckoo_hash_lookup` finds the key in record `i`, `cuckoo_hash_insert` of
that key with any value returns a reference to record `i`, and the table it leaves is
the table it was given: slots, `count` and `power` included. -/
theorem insert_existing_unchanged (hashlittle2 : mixer) (memory : heap)
    (hash : cuckoo_hash) (key value allocs i : Nat)
    (hfound : cuckoo_hash_lookup hashlittle2 hash key = some i) :
    cuckoo_hash_insert hashlittle2 memory hash key value allocs
      = some (hash, insert_return.existing i) := by
  unfold cuckoo_hash_lookup at hfound
  unfold cuckoo_hash_insert
  simp only [hfound]

theorem insert_existing_unchanged_witness :
    cuckoo_hash_lookup fixed_mixer table_two 6 = some 3 ∧
    cuckoo_hash_insert fixed_mixer in_place table_two 6 99 0
      = some (table_two, insert_return.existing 3) :=
  ⟨by decide, insert_existing_unchanged fixed_mixer in_place table_two 6 99 0 3 (by decide)⟩

/-- C6 (fails on the code): inserting key 5 with value 50 into `table_two` returns
`NULL`; inserting key 5 again right away, with value 51, returns `NULL` once more
instead of the record holding 50, stores the new record in slot 5 and raises `count`
from 3 to 4. -/
theorem duplicate_insert_after_growth_inserts_again :
    cuckoo_hash_insert fixed_mixer in_place table_two 5 50 1
      = some (table_grown, insert_return.NULL) ∧
    cuckoo_hash_insert fixed_mixer in_place table_grown 5 51 1
      = some (table_twice, insert_return.NULL) := by
  decide

/-- C7 (fails on the code): `table_grown` is reachable from `cuckoo_hash_init (1)` by
three inserts, its `count` is 3, and only two of its slots are occupied. -/
theorem count_exceeds_occupied_after_growth :
    Reachable fixed_mixer table_grown ∧ table_grown.count = 3 ∧ occupied table_grown = 2 :=
  ⟨reachable_insert_all fixed_mixer 1 [(7, 70), (6, 60), (5, 50)] table_init1 table_grown
      (Reachable.init 1) (by decide),
    by decide, by decide⟩

/-- C8 (fails on the code): in `table_two`, built by inserting keys 7 and 6 with values
70 and 60, slots 1 and 3 are occupied and their stored `hash1` maps to their own
index, yet `cuckoo_hash_next` from `NULL` returns `NULL`: the iteration visits no
record and the traversal sums to 0, not to 130. -/
theorem iteration_yields_nothing :
    insert_all fixed_mixer in_place 0 table_init1 [(7, 70), (6, 60)] = some table_two ∧
    ((bin_at table_two 1).hash1 ≠ (bin_at table_two 1).hash2 ∧
      (bin_at table_two 1).hash1 &&& mask table_two = 1) ∧
    ((bin_at table_two 3).hash1 ≠ (bin_at table_two 3).hash2 ∧
      (bin_at table_two 3).hash1 &&& mask table_two = 3) ∧
    cuckoo_hash_next table_two none = none ∧
    cuckoo_hash_each table_two = [] ∧
    traverse table_two = 0 := by
  decide

/-- C9: with `(h1, h2)` the hashes derived from the key and `mask` the table's mask
(the slot count minus one, for a table of `2 << power` slots whose size fits 32 bits),
`cuckoo_hash_lookup` returns slot `h1 & mask` if that slot stores `hash1 = h1`,
`hash2 = h2` and the key; otherwise slot `h2 & mask` if that slot stores `hash1 = h2`,
`hash2 = h1` and the key; otherwise `NULL`.  So a table with the same `power` that
agrees on these two slots gives the same result, and a record returned is one of the
two slots, holds the key and is occupied. -/
theorem lookup_two_candidates (hashlittle2 : mixer) (hash : cuckoo_hash) (key h1 h2 : Nat)
    (hk : compute_hash hashlittle2 key = (h1, h2)) :
    (cuckoo_hash_lookup hashlittle2 hash key =
      if (bin_at hash (h1 &&& mask hash)).hash1 = h1 ∧
          (bin_at hash (h1 &&& mask hash)).hash2 = h2 ∧
          (bin_at hash (h1 &&& mask hash)).hash_item.key = key then
        some (h1 &&& mask hash)
      else if (bin_at hash (h2 &&& mask hash)).hash1 = h2 ∧
          (bin_at hash (h2 &&& mask hash)).hash2 = h1 ∧
          (bin_at hash (h2 &&& mask hash)).hash_item.key = key then
        some (h2 &&& mask hash)
      else none) ∧
    (∀ hash' : cuckoo_hash, hash'.power = hash.power →
      bin_at hash' (h1 &&& mask hash) = bin_at hash (h1 &&& mask hash) →
      bin_at hash' (h2 &&& mask hash) = bin_at hash (h2 &&& mask hash) →
      cuckoo_hash_lookup hashlittle2 hash' key = cuckoo_hash_lookup hashlittle2 hash key) ∧
    (∀ i, cuckoo_hash_lookup hashlittle2 hash key = some i →
      (i = h1 &&& mask hash ∨ i = h2 &&& mask hash) ∧
      (bin_at hash i).hash_item.key = key ∧
      (bin_at hash i).hash1 ≠ (bin_at hash i).hash2) ∧
    (hash.table.length = 2 <<< hash.power → hash.power < 32 →
      mask hash = hash.table.length - 1) := by
  have hne : h1 ≠ h2 := by
    have := compute_hash_ne hashlittle2 key
    rw [hk] at this
    exact this
  have hform : ∀ hash : cuckoo_hash, cuckoo_hash_lookup hashlittle2 hash key =
      if (bin_at hash (h1 &&& mask hash)).hash1 = h1 ∧
          (bin_at hash (h1 &&& mask hash)).hash2 = h2 ∧
          (bin_at hash (h1 &&& mask hash)).hash_item.key = key then
        some (h1 &&& mask hash)
      else if (bin_at hash (h2 &&& mask hash)).hash1 = h2 ∧
          (bin_at hash (h2 &&& mask hash)).hash2 = h1 ∧
          (bin_at hash (h2 &&& mask hash)).hash_item.key = key then
        some (h2 &&& mask hash)
      else none := by
    intro hash
    unfold cuckoo_hash_lookup lookup
    simp only [hk]
    by_cases c1 : (bin_at hash (h1 &&& mask hash)).hash1 = h1 ∧
        (bin_at hash (h1 &&& mask hash)).hash2 = h2 ∧
        (bin_at hash (h1 &&& mask hash)).hash_item.key = key
    · rw [if_pos c1, if_pos ⟨c1.2.1, c1.1, c1.2.2⟩]
    · rw [if_neg c1, if_neg (fun h => c1 ⟨h.2.1, h.1, h.2.2⟩)]
      by_cases c2 : (bin_at hash (h2 &&& mask hash)).hash1 = h2 ∧
          (bin_at hash (h2 &&& mask hash)).hash2 = h1 ∧
          (bin_at hash (h2 &&& mask hash)).hash_item.key = key
      · rw [if_pos c2, if_pos ⟨c2.2.1, c2.1, c2.2.2⟩]
      · rw [if_neg c2, if_neg (fun h => c2 ⟨h.2.1, h.1, h.2.2⟩)]
  refine ⟨hform hash, ?_, ?_, ?_⟩
  · intro hash' hp e1 e2
    have hm : mask hash' = mask hash := by unfold mask; rw [hp]
    rw [hform hash', hform hash, hm, e1, e2]
  · intro i hi
    rw [hform hash] at hi
    split at hi
    · next c1 =>
      simp only [Option.some.injEq] at hi
      subst hi
      exact ⟨Or.inl rfl, c1.2.2, by rw [c1.1, c1.2.1]; exact hne⟩
    · split at hi
      · next c2 =>
        simp only [Option.some.injEq] at hi
        subst hi
        exact ⟨Or.inr rfl, c2.2.2, by rw [c2.1, c2.2.1]; exact hne.symm⟩
      · exact absurd hi (by simp)
  · intro hlen hp
    rw [mask_eq, Nat.min_eq_left (by omega), hlen, Nat.shiftLeft_eq, Nat.pow_succ']

theorem lookup_two_candidates_witness :
    compute_hash fixed_mixer 6 = (0x49d2d313, 0x589eb531) ∧
    cuckoo_hash_lookup fixed_mixer table_two 6 = some 3 ∧
    (bin_at table_two 3).hash_item.key = 6 ∧
    (bin_at table_two 3).hash1 ≠ (bin_at table_two 3).hash2 ∧
    mask table_two = table_two.table.length - 1 :=
  ⟨by decide, by decide,
    ((lookup_two_candidates fixed_mixer table_two 6 0x49d2d313 0x589eb531 (by decide)).2.2.1 3
      (by decide)).2.1,
    ((lookup_two_candidates fixed_mixer table_two 6 0x49d2d313 0x589eb531 (by decide)).2.2.1 3
      (by decide)).2.2,
    (lookup_two_candidates fixed_mixer table_two 6 0x49d2d313 0x589eb531 (by decide)).2.2.2
      (by decide) (by decide)⟩

/-- C10: whatever pair of 32-bit values `(a, b)` the mixer returns for a key,
`compute_hash` yields two different hashes; it is `(a, ~b)` when `a = b` and
`(a, b)` itself otherwise. -/
theorem compute_hash_distinct (hashlittle2 : mixer) (key a b : Nat)
    (hout : hashlittle2 key 8 0x3ac5d673 0x6d7839d0 = (a, b))
    (ha : a < 2 ^ 32) (hb : b < 2 ^ 32) :
    (compute_hash hashlittle2 key).1 ≠ (compute_hash hashlittle2 key).2 ∧
    (a = b → compute_hash hashlittle2 key = (a, b ^^^ 0xffffffff)) ∧
    (a ≠ b → compute_hash hashlittle2 key = (a, b)) := by
  refine ⟨compute_hash_ne hashlittle2 key, ?_, ?_⟩
  · intro hab
    have hb' : b % 2 ^ 32 = b := Nat.mod_eq_of_lt hb
    simp only [compute_hash, hout, hab, hb', if_true]
  · intro hab
    have ha' : a % 2 ^ 32 = a := Nat.mod_eq_of_lt ha
    have hb' : b % 2 ^ 32 = b := Nat.mod_eq_of_lt hb
    simp only [compute_hash, hout, ha', hb', if_neg hab]

theorem compute_hash_distinct_witness :
    (compute_hash (fun k _ _ _ => (k, 5)) 5).1 ≠ (compute_hash (fun k _ _ _ => (k, 5)) 5).2 ∧
    ((5 : Nat) = 5 → compute_hash (fun k _ _ _ => (k, 5)) 5 = (5, 5 ^^^ 0xffffffff)) ∧
    ((5 : Nat) ≠ 5 → compute_hash (fun k _ _ _ => (k, 5)) 5 = (5, 5)) :=
  compute_hash_distinct (fun k _ _ _ => (k, 5)) 5 5 5 rfl (by decide) (by decide)

/-- C11 (fails on the code): growing the four-slot table `table_stuck`.  `grow_table`
asks `realloc` for 8 bytes, while the four slots the table has take 96 bytes and the
eight slots it is to have take 192; `memset` then clears 4 bytes from byte 96 on,
which is past the end of an 8-byte block and less than one slot of the four new
ones.  So whatever the heap holds, of the old slots only the key of slot 0 is kept by
the calls: slots 1 and 3, which held records, are afterwards what the memory behind
the block holds, and so is slot 5 of the new half; of slot 4 the low four bytes of
the key are cleared and nothing else. -/
theorem grow_requests_slots_as_bytes :
    grow_table_requests table_stuck
      = { realloc_size := 8, memset_start := 96, memset_length := 4 } ∧
    table_stuck.table.length * sizeof_elem = 96 ∧
    (∀ memory, (grow_table memory table_stuck true).1.table.length * sizeof_elem = 192) ∧
    (grow_table_requests table_stuck).realloc_size
      < table_stuck.table.length * sizeof_elem ∧
    (grow_table_requests table_stuck).realloc_size
      ≤ (grow_table_requests table_stuck).memset_start ∧
    (grow_table_requests table_stuck).memset_length < sizeof_elem ∧
    (∀ memory, bin_at (grow_table memory table_stuck true).1 1 = memory table_stuck.table 1) ∧
    (∀ memory, bin_at (grow_table memory table_stuck true).1 3 = memory table_stuck.table 3) ∧
    (∀ memory, bin_at (grow_table memory table_stuck true).1 5 = memory table_stuck.table 5) ∧
    (∀ memory, (bin_at (grow_table memory table_stuck true).1 4).hash1
      = (memory table_stuck.table 4).hash1) ∧
    (∀ memory, (bin_at (grow_table memory table_stuck true).1 4).hash_item.key
      = 256 ^ 4 * ((memory table_stuck.table 4).hash_item.key / 256 ^ 4)) := by
  refine ⟨by decide, by decide, ?_, by decide, by decide, by decide, ?_, ?_, ?_, ?_, ?_⟩
  · intro memory
    rw [(grow_table_fields memory table_stuck).2.2.2]
    decide
  · intro memory; rfl
  · intro memory; rfl
  · intro memory; rfl
  · intro memory; rfl
  · intro memory
    have h : (bin_at (grow_table memory table_stuck true).1 4).hash_item.key
        = 0 % 256 ^ (100 - 96)
          + 256 ^ (100 - 96) * ((memory table_stuck.table 4).hash_item.key / 256 ^ (100 - 96)) :=
      rfl
    rw [h, Nat.zero_mod, Nat.zero_add]

/-- C12: the steady-state predicate (every occupied slot sits at the index its `hash1`
or its `hash2` maps to under the current mask) holds for the table of
`cuckoo_hash_init`, is preserved by `cuckoo_hash_remove`, and is preserved by every
`cuckoo_hash_insert` that returns without having grown the table, that is with
`power` unchanged. -/
theorem steady_state_preserved :
    (∀ power, steady (cuckoo_hash_init power true).1) ∧
    (∀ (hash hash' : cuckoo_hash) (hash_item : Option Nat), steady hash →
      cuckoo_hash_remove hash hash_item = some hash' → steady hash') ∧
    (∀ (hashlittle2 : mixer) (memory : heap) (hash hash' : cuckoo_hash)
      (key value allocs : Nat) (r : insert_return), steady hash →
      cuckoo_hash_insert hashlittle2 memory hash key value allocs = some (hash', r) →
      hash'.power = hash.power → steady hash') := by
  refine ⟨?_, ?_, ?_⟩
  · intro power i hi
    rw [init_bin_at] at hi
    exact absurd rfl hi
  · intro hash hash' hash_item hs hrem
    cases hash_item with
    | none => exact absurd hrem (by simp [cuckoo_hash_remove])
    | some s =>
      obtain ⟨hb, hm, -, -⟩ := remove_bin_at hash hash' s hrem
      intro i hi
      rw [hb i] at hi ⊢
      rw [hm]
      split
      · next hc => rw [if_pos hc] at hi; exact absurd rfl hi
      · next hc => rw [if_neg hc] at hi; exact hs i hi
  · intro hashlittle2 memory hash hash' key value allocs r hs hins hp
    unfold cuckoo_hash_insert at hins
    simp only at hins
    split at hins
    · simp only [Option.some.injEq, Prod.mk.injEq] at hins
      rw [← hins.1]; exact hs
    · split at hins
      · exact absurd hins (by simp)
      · next h1 i1 hi =>
        simp only [Option.some.injEq, Prod.mk.injEq] at hins
        have hp1 : h1.power = hash.power := by rw [← hp, ← hins.1]
        have hr := insert_same_power memory allocs hash h1 _ i1 true hi hp1
        have hst := insert_rounds_steady hash.recursion_limit hash
          { hash_item := { key := key, value := value },
            hash1 := (compute_hash hashlittle2 key).1,
            hash2 := (compute_hash hashlittle2 key).2 } hs
        rw [hr] at hst
        exact steady_congr h1 hash' (by rw [← hins.1]) (by rw [← hins.1]) hst
      · next h1 i1 hi =>
        exact absurd (insert_returns_true memory allocs _ _ _ _ _ hi) (by simp)

theorem steady_state_preserved_witness :
    steady table_init1 ∧ steady table_one ∧ steady table_two ∧ steady table_removed :=
  ⟨steady_state_preserved.1 1,
    steady_state_preserved.2.2 fixed_mixer in_place table_init1 table_one 7 70 0
      insert_return.NULL (steady_state_preserved.1 1) (by decide) (by decide),
    steady_state_preserved.2.2 fixed_mixer in_place table_one table_two 6 60 0
      insert_return.NULL
      (steady_state_preserved.2.2 fixed_mixer in_place table_init1 table_one 7 70 0
        insert_return.NULL (steady_state_preserved.1 1) (by decide) (by decide))
      (by decide) (by decide),
    steady_state_preserved.2.1 table_two table_removed (some 1)
      (steady_state_preserved.2.2 fixed_mixer in_place table_one table_two 6 60 0
        insert_return.NULL
        (steady_state_preserved.2.2 fixed_mixer in_place table_init1 table_one 7 70 0
          insert_return.NULL (steady_state_preserved.1 1) (by decide) (by decide))
        (by decide) (by decide))
      (by decide)⟩

/-- C13: over any sequence of `cuckoo_hash_insert` and `cuckoo_hash_remove` calls from
`cuckoo_hash_init` in which no call aborts and every remove is given the record of an
occupied slot, on any heap and with any growth on the way, `count` equals the number
of inserts that returned `NULL` minus the number of removes in `size_t` arithmetic,
and exactly whenever that difference is a number a `size_t` holds (no more removes
than such inserts, fewer than `2 ^ 64` of these).  No more removes than such inserts
are possible when no insert of the sequence grew the table (`power` as at the start)
or growth found the old slots kept and zero behind them (heap `in_place`).  The
tallies move with the calls: an insert that returns `NULL` adds one to the first, an
insert that returns a record or the failure sentinel adds nothing, a remove adds one
to the second. -/
theorem count_is_inserts_minus_removes (hashlittle2 : mixer) (memory : heap) (power : Nat)
    (ops : List operation) (s : run_state)
    (hrun : run hashlittle2 memory
      { hash := (cuckoo_hash_init power true).1, inserted := 0, removed := 0 } ops = some s) :
    (s.hash.count + s.removed) % 2 ^ 64 = s.inserted % 2 ^ 64 ∧
    (s.removed ≤ s.inserted → s.inserted < 2 ^ 64 →
      s.hash.count = s.inserted - s.removed) ∧
    (s.hash.power = power ∨ memory = in_place → s.inserted < 2 ^ 64 →
      s.removed ≤ s.inserted ∧ s.hash.count = s.inserted - s.removed) := by
  have hc := run_count hashlittle2 memory ops _ s hrun
    (by show (0 : Nat) < 2 ^ 64; decide) rfl
  refine ⟨hc.2, ?_, ?_⟩
  · intro hle hlt
    have h1 := hc.1
    have h2 := hc.2
    omega
  · intro hgrow hlt
    have h0 : tally_ok
        { hash := (cuckoo_hash_init power true).1, inserted := 0, removed := 0 } :=
      ⟨by show occupied (cuckoo_hash_init power true).1 ≤ 0; rw [occupied_init], rfl⟩
    have := run_inv hashlittle2 memory ops _ s h0 (init_inv hashlittle2 power).size hrun
      hgrow hlt
    obtain ⟨-, h2⟩ := this
    omega

theorem count_is_inserts_minus_removes_witness :
    run fixed_mixer in_place
        { hash := (cuckoo_hash_init 1 true).1, inserted := 0, removed := 0 }
        [operation.insert 7 70 1, operation.insert 6 60 1, operation.insert 6 61 1,
          operation.insert 5 50 1, operation.remove 3]
      = some { hash := table_grown_removed, inserted := 3, removed := 1 } ∧
    (table_grown_removed.count + 1) % 2 ^ 64 = 3 % 2 ^ 64 ∧
    table_grown_removed.count = 3 - 1 ∧
    ((1 : Nat) ≤ 3 ∧ table_grown_removed.count = 3 - 1) :=
  ⟨by decide,
    (count_is_inserts_minus_removes fixed_mixer in_place 1
      [operation.insert 7 70 1, operation.insert 6 60 1, operation.insert 6 61 1,
        operation.insert 5 50 1, operation.remove 3]
      { hash := table_grown_removed, inserted := 3, removed := 1 } (by decide)).1,
    (count_is_inserts_minus_removes fixed_mixer in_place 1
      [operation.insert 7 70 1, operation.insert 6 60 1, operation.insert 6 61 1,
        operation.insert 5 50 1, operation.remove 3]
      { hash := table_grown_removed, inserted := 3, removed := 1 } (by decide)).2.1
      (by decide) (by decide),
    (count_is_inserts_minus_removes fixed_mixer in_place 1
      [operation.insert 7 70 1, operation.insert 6 60 1, operation.insert 6 61 1,
        operation.insert 5 50 1, operation.remove 3]
      { hash := table_grown_removed, inserted := 3, removed := 1 } (by decide)).2.2
      (Or.inr rfl) (by decide)⟩

/-- C14: for every table and every slot `s` of it (an occupied one in particular),
`cuckoo_hash_remove` on the record of `s` returns; afterwards `hash1` and `hash2` of
slot `s` are 0 and its key and value are as before, every other slot, the number of
slots, `power` and `recursion_limit` are unchanged, and `count` is one less (as a
`size_t`: exactly one less when it was positive). -/
theorem remove_clears_slot (hash : cuckoo_hash) (s : Nat) (hlt : s < hash.table.length) :
    ∃ hash', cuckoo_hash_remove hash (some s) = some hash' ∧
      (bin_at hash' s).hash1 = 0 ∧ (bin_at hash' s).hash2 = 0 ∧
      (bin_at hash' s).hash_item = (bin_at hash s).hash_item ∧
      (∀ j, j ≠ s → bin_at hash' j = bin_at hash j) ∧
      hash'.table.length = hash.table.length ∧
      hash'.power = hash.power ∧
      hash'.recursion_limit = hash.recursion_limit ∧
      hash'.count = (hash.count + 2 ^ 64 - 1) % 2 ^ 64 ∧
      (0 < hash.count → hash.count < 2 ^ 64 → hash'.count + 1 = hash.count) := by
  obtain ⟨hash', hrem⟩ : ∃ hash', cuckoo_hash_remove hash (some s) = some hash' := ⟨_, rfl⟩
  obtain ⟨hb, -, hlen, hp⟩ := remove_bin_at hash hash' s hrem
  have hcnt : hash'.count = (hash.count + 2 ^ 64 - 1) % 2 ^ 64 := by
    simp only [cuckoo_hash_remove, Option.some.injEq] at hrem
    rw [← hrem]
  have hrl : hash'.recursion_limit = hash.recursion_limit := by
    simp only [cuckoo_hash_remove, Option.some.injEq] at hrem
    rw [← hrem]; rfl
  refine ⟨hash', hrem, ?_, ?_, ?_, ?_, hlen, hp, hrl, hcnt, ?_⟩
  · rw [hb s, if_pos ⟨rfl, hlt⟩]
  · rw [hb s, if_pos ⟨rfl, hlt⟩]
  · rw [hb s, if_pos ⟨rfl, hlt⟩]
  · intro j hj
    rw [hb j, if_neg (fun h => hj h.1.symm)]
  · intro h0 h64
    rw [hcnt]
    omega

theorem remove_clears_slot_witness :
    1 < table_two.table.length ∧
    (bin_at table_two 1).hash1 ≠ (bin_at table_two 1).hash2 ∧
    cuckoo_hash_remove table_two (some 1) = some table_removed ∧
    ∃ hash', cuckoo_hash_remove table_two (some 1) = some hash' ∧
      (bin_at hash' 1).hash1 = 0 ∧ (bin_at hash' 1).hash2 = 0 ∧
      (bin_at hash' 1).hash_item = (bin_at table_two 1).hash_item ∧
      (∀ j, j ≠ 1 → bin_at hash' j = bin_at table_two j) ∧
      hash'.table.length = table_two.table.length ∧
      hash'.power = table_two.power ∧
      hash'.recursion_limit = table_two.recursion_limit ∧
      hash'.count = (table_two.count + 2 ^ 64 - 1) % 2 ^ 64 ∧
      (0 < table_two.count → table_two.count < 2 ^ 64 → hash'.count + 1 = table_two.count) :=
  ⟨by decide, by decide, by decide, remove_clears_slot table_two 1 (by decide)⟩

/-- C15 (fails as stated): slot 0 of `table_two` is empty, yet `cuckoo_hash_remove` on
its record does not abort: it returns, and `count` has gone from 2 to 1. -/
theorem remove_empty_slot_not_checked :
    (bin_at table_two 0).hash1 = (bin_at table_two 0).hash2 ∧
    table_two.count = 2 ∧
    cuckoo_hash_remove table_two (some 0) = some { table_two with count := 1 } ∧
    cuckoo_hash_remove table_two (some 0) ≠ none := by
  decide

/-- C15 (amended): `cuckoo_hash_remove` with a null reference aborts on its `assert`,
before any slot or `count` is written; a non-null reference is not checked, the call
returns for every table and every index. -/
theorem remove_null_aborts (hash : cuckoo_hash) :
    cuckoo_hash_remove hash none = none ∧
    ∀ i, cuckoo_hash_remove hash (some i) ≠ none := by
  refine ⟨rfl, ?_⟩
  intro i h
  simp [cuckoo_hash_remove] at h

/-- C16: when the loop of `insert` runs all `recursion_limit` rounds on table `hash`
with candidate `item` without placing it, and leaves table `hash'` with `item'` in
hand, then the loop of `undo_insert` on `hash'` and `item'`, which works under the
same mask, runs all its rounds and ends with exactly the table `hash` (every slot,
`count` and `power`) and with `item` in hand; the value it returns is `false`. -/
theorem undo_inverts_rounds (hash hash' : cuckoo_hash) (item item' : _cuckoo_hash_elem)
    (h : insert_rounds hash item hash.recursion_limit = (hash', item', false)) :
    mask hash' = mask hash ∧ undo_insert hash' item' = some (hash, item, false) := by
  have hf := insert_rounds_fields hash.recursion_limit hash item
  rw [h] at hf
  have hm : mask hash' = mask hash := by unfold mask; rw [hf.1]
  refine ⟨hm, ?_⟩
  unfold undo_insert
  have := undo_after_rounds hash.recursion_limit hash hash' item item' h 0 0
  rw [Nat.add_zero] at this
  rw [hf.2.2.1, this]
  rfl

theorem undo_inverts_rounds_witness :
    insert_rounds table_two
        { hash_item := { key := 5, value := 50 }, hash1 := 0x1269aa5d, hash2 := 0x7e0940a5 }
        table_two.recursion_limit
      = (table_stuck,
         { hash_item := { key := 6, value := 60 }, hash1 := 0x49d2d313, hash2 := 0x589eb531 },
         false) ∧
    mask table_stuck = mask table_two ∧
    undo_insert table_stuck
        { hash_item := { key := 6, value := 60 }, hash1 := 0x49d2d313, hash2 := 0x589eb531 }
      = some (table_two,
          { hash_item := { key := 5, value := 50 }, hash1 := 0x1269aa5d, hash2 := 0x7e0940a5 },
          false) :=
  ⟨by decide, undo_inverts_rounds table_two table_stuck _ _ (by decide)⟩

/-- C17 (fails on the code): inserting key 5 into `table_two` with one reallocation
left, on the heap `in_place`.  The 16 rounds end with the record of key 6 in hand and
the record of key 5 in slot 1; the call of `insert` is then the call of `insert` on
the grown table with that record of key 6, a record displaced during the rounds, not
with the record built for key 5.  It returns `true`, `cuckoo_hash_insert` returns
`NULL`, and of the keys 7, 6, 5 the lookup afterwards finds one.  Started from step 1
with the record built for key 5 on the grown table, as the table was before the
rounds, `insert` places that record at once and the lookup finds all three keys. -/
theorem retry_continues_with_displaced_record :
    insert_rounds table_two
        { hash_item := { key := 5, value := 50 }, hash1 := 0x1269aa5d, hash2 := 0x7e0940a5 } 16
      = (table_stuck,
         { hash_item := { key := 6, value := 60 }, hash1 := 0x49d2d313, hash2 := 0x589eb531 },
         false) ∧
    insert in_place table_two
        { hash_item := { key := 5, value := 50 }, hash1 := 0x1269aa5d, hash2 := 0x7e0940a5 } 1
      = insert in_place (grow_table in_place table_stuck true).1
        { hash_item := { key := 6, value := 60 }, hash1 := 0x49d2d313, hash2 := 0x589eb531 } 0 ∧
    insert in_place table_two
        { hash_item := { key := 5, value := 50 }, hash1 := 0x1269aa5d, hash2 := 0x7e0940a5 } 1
      = some ({ table_grown with count := 2 },
          { hash_item := { key := 6, value := 60 }, hash1 := 0x49d2d313, hash2 := 0x589eb531 },
          true) ∧
    cuckoo_hash_insert fixed_mixer in_place table_two 5 50 1
      = some (table_grown, insert_return.NULL) ∧
    found fixed_mixer table_grown [7, 6, 5] = 1 ∧
    insert in_place (grow_table in_place table_two true).1
        { hash_item := { key := 5, value := 50 }, hash1 := 0x1269aa5d, hash2 := 0x7e0940a5 } 0
      = some (table_retried,
          { hash_item := { key := 5, value := 50 }, hash1 := 0x1269aa5d, hash2 := 0x7e0940a5 },
          true) ∧
    found fixed_mixer table_retried [7, 6, 5] = 3 := by
  decide

/-- C18: for every table and every starting point, null or a record,
`cuckoo_hash_next` returns `NULL`: no slot passes `bin <= elem && elem < bin`. -/
theorem next_always_null (hash : cuckoo_hash) (hash_item : Option Nat) :
    cuckoo_hash_next hash hash_item = none := by
  unfold cuckoo_hash_next
  exact next_scan_none _ _ _ _ _

/-- C20 (fails on the code): after a growth the indices computed under the new mask
address slots that are no part of the block.  For the four-slot table `table_stuck`
(96 bytes from `cuckoo_hash_init`) `grow_table` leaves a block of 8 bytes and, on
every heap, the mask 7.  The retried loop of `insert` computes index 3 for the
record of key 6 it has in hand and stores the record there in its first round, bytes
72 to 95 from the start of the 8-byte block; the lookup of key 5 afterwards computes
index 5 and reads bytes 120 to 143, past the end even of the 96-byte array.  For
every table and heap the block `grow_table` asks for is shorter than the array of
slots addressed under the new mask. -/
theorem grown_table_indexed_past_block :
    table_stuck.table.length * sizeof_elem = 96 ∧
    (grow_table_requests table_stuck).realloc_size = 8 ∧
    (∀ memory, mask (grow_table memory table_stuck true).1 = 7) ∧
    0x49d2d313 &&& 7 = 3 ∧
    (∀ memory,
      (insert_rounds (grow_table memory table_stuck true).1
          { hash_item := { key := 6, value := 60 },
            hash1 := 0x49d2d313, hash2 := 0x589eb531 } 1).1
        = bin_store (grow_table memory table_stuck true).1 3
          { hash_item := { key := 6, value := 60 },
            hash1 := 0x49d2d313, hash2 := 0x589eb531 }) ∧
    (grow_table_requests table_stuck).realloc_size < (3 + 1) * sizeof_elem ∧
    0x1269aa5d &&& 7 = 5 ∧
    table_stuck.table.length * sizeof_elem ≤ 5 * sizeof_elem ∧
    (∀ (memory : heap) (hash : cuckoo_hash),
      (grow_table_requests hash).realloc_size
        < (grow_table memory hash true).1.table.length * sizeof_elem) := by
  refine ⟨by decide, by decide, fun _ => rfl, by decide, ?_, by decide, by decide,
    by decide, ?_⟩
  · intro memory
    have hm : mask (grow_table memory table_stuck true).1 = 7 := rfl
    have hi : 0x49d2d313 &&& 7 = 3 := by decide
    rw [insert_rounds]
    simp only [hm, hi]
    split
    · rfl
    · rfl
  · intro memory hash
    rw [(grow_table_fields memory hash).2.2.2]
    show (2 <<< hash.power) <<< 1 < 2 <<< (hash.power + 1) * 24
    rw [Nat.shiftLeft_eq (2 <<< hash.power) 1, Nat.shiftLeft_eq, Nat.shiftLeft_eq,
      Nat.pow_succ]
    have hpos : 0 < 2 ^ hash.power := Nat.pos_pow_of_pos _ (by decide)
    omega

end CuckooHash
